import Mathlib

/-!
Verification development for the item-graph core of a C/C++ header-to-binding
generator (the `BindgenContext` in `src/ir/context.rs`).

The embedding translates the source file's data model and operations into
executable Lean definitions.  External collaborators (the clang front-end,
the `Item`/`Type` payload modules, the options object) are modelled at their
interface boundary; definitions whose source is not part of the repository
snapshot carry a doc comment starting with `Modelled from the spec:`.

Machine maps are modelled as association lists: the `BTreeMap` of items as a
key-sorted association list (`insertItem` keeps the sort), and the `HashMap`s
(`types`, `replacements`) as plain association lists with first-match lookup.
`panic!` and `assert!` failures are modelled as `none` results.
-/

namespace Bindgen

/-- First-match lookup in an association list (models map lookup). -/
def alookup {α β : Type} [DecidableEq α] : List (α × β) → α → Option β
  | [], _ => none
  | (k, v) :: t, x => if x = k then some v else alookup t x

/-- Insert-or-replace in an unordered association list (models `HashMap::insert`). -/
def ainsert {α β : Type} [DecidableEq α] (k : α) (v : β) : List (α × β) → List (α × β)
  | [] => [(k, v)]
  | (k', v') :: t => if k = k' then (k, v) :: t else (k', v') :: ainsert k v t

/-- Cursor kinds of the clang front-end that `context.rs` inspects.
`classTemplateSpec` stands for the partial-specialization cursor kind. -/
inductive CursorKind where
  | classTemplate
  | classTemplateSpec
  | typeRef
  | namespaceDecl
  | otherCursor
deriving DecidableEq, Repr

/-- Type tags of the clang front-end, as matched by `build_builtin_ty`. -/
inductive CXTypeKind where
  | invalid | void | nullPtr | bool | int | uint
  | schar | charS | uchar | charU | short | ushort
  | wchar | char16 | char32 | long | ulong | longLong | ulongLong
  | int128 | uint128 | float | double | longDouble
  | otherTy
deriving DecidableEq, Repr

/-- Size and alignment, as produced by `fallible_layout`. -/
structure Layout where
  size : Nat
  align : Nat
deriving DecidableEq, Repr

/-- The canonical form of a front-end declaration: validity, the optional
unique symbol identifier (USR), an identity token used when the cursor itself
is a map key, and the identity of the declaration's own type. -/
structure Canon where
  valid : Bool
  usr : Option String
  ident : Nat
  curTyId : Nat
deriving DecidableEq, Repr

/-- A front-end declaration cursor as queried by `context.rs`:
kind, validity, and its canonical declaration. -/
structure Decl where
  kind : CursorKind
  valid : Bool
  canonical : Canon
deriving DecidableEq, Repr

/-- A raw front-end type descriptor: kind tag, an identity token (clang type
equality), spelling, constness, fallible layout, and its declaration cursor. -/
structure CType where
  kind : CXTypeKind
  tyId : Nat
  spelling : String
  isConst : Bool
  layout : Option Layout
  decl : Decl
deriving DecidableEq, Repr

/-- A child node seen by the AST-visitation callback in `build_template_wrapper`. -/
structure ChildCursor where
  kind : CursorKind
  curType : CType
deriving DecidableEq, Repr

/-- A source-location cursor: kind, validity, canonical declaration, and the
immediate AST children exposed to `visit`. -/
structure Cursor where
  kind : CursorKind
  valid : Bool
  canonical : Canon
  children : List ChildCursor
deriving DecidableEq, Repr

/-- View a location cursor as a plain declaration cursor. -/
def Cursor.asDecl (c : Cursor) : Decl := ⟨c.kind, c.valid, c.canonical⟩

/-- View a visited child as a location cursor (no further children exposed). -/
def ChildCursor.asCursor (c : ChildCursor) : Cursor :=
  ⟨c.kind, true, c.curType.decl.canonical, []⟩

/-- View a declaration cursor as a location cursor with no children. -/
def declAsCursor (d : Decl) : Cursor := ⟨d.kind, d.valid, d.canonical, []⟩

/-- A key of the type registry: a USR string, or the canonical declaration's
identity when the type is unnamed. -/
inductive TypeKey where
  | usr (s : String)
  | declaration (ident : Nat)
deriving DecidableEq, Repr

/-- Integer kinds produced by builtin classification. -/
inductive IntKind where
  | bool | char | uchar | short | ushort | u16 | u32
  | int | uint | long | ulong | longLong | ulongLong | i128 | u128
deriving DecidableEq, Repr

/-- Floating-point kinds produced by builtin classification. -/
inductive FloatKind where
  | float | double | longDouble
deriving DecidableEq, Repr

/-- Composite (struct/union) payload: declared template arguments, field type
ids, and whether this composite is a template specialization. -/
structure CompInfo where
  templateArgs : List Nat
  fields : List Nat
  isTemplateSpecialization : Bool
deriving DecidableEq, Repr

/-- An enum variant (only the name is consulted by the whitelisting root set). -/
structure EnumVariant where
  name : String
deriving DecidableEq, Repr

/-- Enum payload. -/
structure EnumInfo where
  variants : List EnumVariant
deriving DecidableEq, Repr

/-- The closed variant set of type kinds used by `context.rs`. -/
inductive TypeKind where
  | void
  | nullPtr
  | int (k : IntKind)
  | float (k : FloatKind)
  | comp (ci : CompInfo)
  | templateAlias (inner : Nat) (args : List Nat)
  | alias (spelling : String) (inner : Nat)
  | enumTy (e : EnumInfo)
  | pointer (inner : Nat)
  | unresolvedTypeRef (ty : CType) (loc : Option Cursor) (parentId : Option Nat)
  | resolvedTypeRef (id : Nat)
  | templateRef (wrapping : Nat) (args : List Nat)
  | otherKind
deriving DecidableEq, Repr

/-- A type node payload: optional name, optional layout, kind, constness. -/
structure Ty where
  name : Option String
  layout : Option Layout
  kind : TypeKind
  isConst : Bool
deriving DecidableEq, Repr

/-- A module payload: optional name and accumulated children. -/
structure ModuleInfo where
  name : Option String
  children : List Nat
deriving DecidableEq, Repr

/-- Modelled from the spec: a function item's payload; `signature` holds the
node ids its signature references (return and argument types), which is what
`collect_types` enumerates for functions. -/
structure FunctionInfo where
  name : String
  signature : List Nat
deriving DecidableEq, Repr

/-- Modelled from the spec: a variable item's payload with the id of its type. -/
structure VarInfo where
  name : String
  tyRef : Nat
deriving DecidableEq, Repr

/-- The four item kinds. -/
inductive ItemKind where
  | module (m : ModuleInfo)
  | type (t : Ty)
  | function (f : FunctionInfo)
  | var (v : VarInfo)
deriving DecidableEq, Repr

/-- A graph node: identifier, owning parent identifier, kind payload.
(The comment and annotation slots of `Item::new` are not part of this core.) -/
structure Item where
  id : Nat
  parent : Nat
  kind : ItemKind
deriving DecidableEq, Repr

/-- `Item::new` without the comment/annotation slots. -/
def Item.new (id : Nat) (parent : Nat) (kind : ItemKind) : Item :=
  ⟨id, parent, kind⟩

/-- Modelled from the spec: `Item::canonical_name` (in the missing `item.rs`)
computes the fully-qualified canonical name of an item; names here are atoms,
so the canonical name is the payload's own name (empty when anonymous). -/
def canonical_name (item : Item) : String :=
  match item.kind with
  | .module m => m.name.getD ""
  | .type t => t.name.getD ""
  | .function f => f.name
  | .var v => v.name

/-- Modelled from the spec: the user configuration consulted by whitelisting;
each name filter matches by membership, and an empty filter matches nothing. -/
structure Options where
  whitelistedTypes : List String
  whitelistedFunctions : List String
  whitelistedVars : List String
deriving DecidableEq, Repr

/-- The item graph (`BindgenContext`), restricted to the state its algorithms
read and write: the id-sorted item map, the type registry, the root/current
module ids, the replacement table, the one-shot typeref flag, the options, and
the id counter (`Nat::next`). -/
structure Context where
  items : List (Nat × Item)
  types : List (TypeKey × Nat)
  rootModule : Nat
  currentModule : Nat
  replacements : List (String × Nat)
  collectedTyperefs : Bool
  options : Options
  counter : Nat
deriving DecidableEq, Repr

/-- Ordered insertion into the id-sorted item list (models `BTreeMap::insert`). -/
def insertItem (k : Nat) (v : Item) : List (Nat × Item) → List (Nat × Item)
  | [] => [(k, v)]
  | (k', v') :: t =>
    if k < k' then (k, v) :: (k', v') :: t
    else if k = k' then (k, v) :: t
    else (k', v') :: insertItem k v t

/-- Well-formedness of the item map: keys strictly ascending (as in a `BTreeMap`). -/
abbrev ItemsWF (l : List (Nat × Item)) : Prop :=
  l.Pairwise (fun a b => a.1 < b.1)

/-- The two-step registry lookup of `builtin_or_resolved_ty`:
declaration-identity key first, then the USR key. -/
def typesLookup (ctx : Context) (canon : Canon) : Option Nat :=
  match alookup ctx.types (TypeKey.declaration canon.ident) with
  | some id => some id
  | none =>
    match canon.usr with
    | some u => alookup ctx.types (TypeKey.usr u)
    | none => none

/-- `BindgenContext::add_item`.  Inserts the node; the `assert!` against a
duplicate identifier is the `none` result.  For type items with a declaration
it then registers the node in the type registry: substituting the location for
an invalid declaration when the location is a (possibly partially specialized)
class template, skipping registration when the canonical declaration is
invalid, and skipping it (after an error log) when a named type's canonical
declaration has no USR. -/
def add_item (ctx : Context) (item : Item) (declaration location : Option Cursor) :
    Option Context :=
  let id := item.id
  match alookup ctx.items id with
  | some _ => none
  | none =>
    let items1 := insertItem id item ctx.items
    let isType := match item.kind with | .type _ => true | _ => false
    let isUnnamed := match item.kind with | .type t => t.name.isNone | _ => false
    match declaration with
    | none => some { ctx with items := items1 }
    | some d0 =>
      if isType then
        let d1 : Cursor :=
          if ¬ d0.valid then
            match location with
            | some l =>
              if l.kind = CursorKind.classTemplate ∨ l.kind = CursorKind.classTemplateSpec
              then l else d0
            | none => d0
          else d0
        let canon := d1.canonical
        if ¬ canon.valid then some { ctx with items := items1 }
        else
          let key? : Option TypeKey :=
            if isUnnamed then some (TypeKey.declaration canon.ident)
            else match canon.usr with
              | some u => some (TypeKey.usr u)
              | none => none
          match key? with
          | none => some { ctx with items := items1 }
          | some key => some { ctx with items := items1, types := ainsert key id ctx.types }
      else some { ctx with items := items1 }

/-- `BindgenContext::add_builtin_item`: direct insertion with the same
duplicate-identifier `assert!`, but no registry bookkeeping. -/
def add_builtin_item (ctx : Context) (item : Item) : Option Context :=
  match alookup ctx.items item.id with
  | some _ => none
  | none => some { ctx with items := insertItem item.id item ctx.items }

/-- `BindgenContext::resolve_item_fallible`. -/
def resolve_item_fallible (ctx : Context) (id : Nat) : Option Item :=
  alookup ctx.items id

/-- `BindgenContext::resolve_item`; the `panic!` on a missing id is `none`. -/
def resolve_item (ctx : Context) (id : Nat) : Option Item :=
  alookup ctx.items id

/-- `BindgenContext::resolve_type`; panics (missing id, or not a type) are `none`. -/
def resolve_type (ctx : Context) (id : Nat) : Option Ty :=
  match alookup ctx.items id with
  | some item =>
    match item.kind with
    | .type t => some t
    | _ => none
  | none => none

/-- `BindgenContext::replace`: first writer wins; a second registration for
the same name only logs a warning and leaves the table unchanged. -/
def replace (ctx : Context) (name : String) (potentialTy : Nat) : Context :=
  match alookup ctx.replacements name with
  | some _ => ctx
  | none => { ctx with replacements := ainsert name potentialTy ctx.replacements }

/-- `BindgenContext::is_replaced_type`: true exactly when a replacement is
registered under `name` and maps to an id other than `id`. -/
def is_replaced_type (ctx : Context) (name : String) (id : Nat) : Bool :=
  match alookup ctx.replacements name with
  | some replacedBy => replacedBy != id
  | none => false

/-- `BindgenContext::collect_typerefs`: flips the one-shot flag and records
every `UnresolvedTypeRef` payload in item-id order. -/
def collect_typerefs (ctx : Context) :
    List (Nat × CType × Option Cursor × Option Nat) × Context :=
  (ctx.items.filterMap (fun p =>
     match p.2.kind with
     | .type t =>
       match t.kind with
       | .unresolvedTypeRef ty loc parentId => some (p.1, ty, loc, parentId)
       | _ => none
     | _ => none),
   { ctx with collectedTyperefs := true })

/-- Rewrite the type kind of the item stored at `id` in place; the `unwrap`s
of `resolve_typerefs`/`process_replacements` (missing id, non-type item) are
the `none` result. -/
def set_type_kind (ctx : Context) (id : Nat) (k : TypeKind) : Option Context :=
  match alookup ctx.items id with
  | none => none
  | some it =>
    match it.kind with
    | .type t =>
      some { ctx with items := insertItem id { it with kind := .type { t with kind := k } } ctx.items }
    | _ => none

/-- `BindgenContext::build_ty_wrapper`: a lightweight forwarding node carrying
this occurrence's spelling, layout and constness, inserted through the builtin
path (no registry registration). -/
def build_ty_wrapper (ctx : Context) (withId wrappedId : Nat) (parentId : Option Nat)
    (ty : CType) : Option (Nat × Context) :=
  let t : Ty := ⟨some ty.spelling, ty.layout, .resolvedTypeRef wrappedId, ty.isConst⟩
  let item := Item.new withId (parentId.getD ctx.currentModule) (.type t)
  (add_builtin_item ctx item).map (fun c => (withId, c))

/-- The builtin-classification match of `build_builtin_ty`. -/
def builtin_ty_kind (k : CXTypeKind) : Option TypeKind :=
  match k with
  | .nullPtr => some .nullPtr
  | .void => some .void
  | .bool => some (.int .bool)
  | .int => some (.int .int)
  | .uint => some (.int .uint)
  | .schar => some (.int .char)
  | .charS => some (.int .char)
  | .uchar => some (.int .uchar)
  | .charU => some (.int .uchar)
  | .short => some (.int .short)
  | .ushort => some (.int .ushort)
  | .wchar => some (.int .u16)
  | .char16 => some (.int .u16)
  | .char32 => some (.int .u32)
  | .long => some (.int .long)
  | .ulong => some (.int .ulong)
  | .longLong => some (.int .longLong)
  | .ulongLong => some (.int .ulongLong)
  | .int128 => some (.int .i128)
  | .uint128 => some (.int .u128)
  | .float => some (.float .float)
  | .double => some (.float .double)
  | .longDouble => some (.float .longDouble)
  | _ => none

/-- `BindgenContext::build_builtin_ty`: classify the primitive tag; on success
allocate a brand-new node parented at the root module and insert it through
the builtin path; `none` classification yields no id. -/
def build_builtin_ty (ctx : Context) (ty : CType) : Option (Option Nat × Context) :=
  match builtin_ty_kind ty.kind with
  | none => some (none, ctx)
  | some tk =>
    let t : Ty := ⟨some ty.spelling, ty.layout, tk, ty.isConst⟩
    let id := ctx.counter
    let ctx1 := { ctx with counter := id + 1 }
    let item := Item.new id ctx1.rootModule (.type t)
    (add_builtin_item ctx1 item).map (fun c => (some id, c))

mutual

/-- `BindgenContext::builtin_or_resolved_ty`.  The `fuel` argument makes the
mutual recursion (through template-wrapper synthesis and re-parsing) visibly
terminating; in the source it is bounded by the finite clang AST.  Exhausted
fuel is `none`, like a panic.  The source guards the template-wrapper branch
with `location.is_some() && parent_id.is_some()` and then unwraps both; here
that is phrased as one match on the two options. -/
def builtin_or_resolved_ty (fuel : Nat) (ctx : Context) (withId : Nat)
    (parentId : Option Nat) (ty : CType) (location : Option Cursor) :
    Option (Option Nat × Context) :=
  match fuel with
  | 0 => none
  | f + 1 =>
    let d0 := ty.decl
    let d1 : Decl :=
      if ¬ d0.valid then
        match location with
        | some l =>
          if l.kind = CursorKind.classTemplate ∨ l.kind = CursorKind.classTemplateSpec
          then l.asDecl else d0
        | none => d0
      else d0
    let canon := d1.canonical
    if canon.valid then
      match typesLookup ctx canon with
      | some id =>
        match location, parentId with
        | some loc, some pid =>
          if (d1.kind = CursorKind.classTemplate ∨ d1.kind = CursorKind.classTemplateSpec) ∧
              ty.tyId ≠ canon.curTyId then
            (build_template_wrapper f ctx withId id pid ty loc).map (fun p => (some p.1, p.2))
          else
            (build_ty_wrapper ctx withId id parentId ty).map (fun p => (some p.1, p.2))
        | _, _ =>
          (build_ty_wrapper ctx withId id parentId ty).map (fun p => (some p.1, p.2))
      | none => build_builtin_ty ctx ty
    else build_builtin_ty ctx ty

/-- `BindgenContext::build_template_wrapper`: walk the occurrence's immediate
AST children collecting one argument per `TypeRef` child; on an argument-count
mismatch against the canonical composite's declared template arguments, log
and return the unspecialized `wrapping` id; otherwise insert a fresh
`TemplateRef` node directly into the item map (bypassing `add_item`) and
return `with_id`.  The panics (`wrapping` missing or not a composite type)
are `none`. -/
def build_template_wrapper (fuel : Nat) (ctx : Context) (withId wrapping parentId : Nat)
    (ty : CType) (location : Cursor) : Option (Nat × Context) :=
  match fuel with
  | 0 => none
  | f + 1 =>
    match walk_template_args f ctx wrapping location.children with
    | none => none
    | some (args, ctx1) =>
      match resolve_type ctx1 wrapping with
      | some wt =>
        match wt.kind with
        | .comp ci =>
          if ci.templateArgs.length ≠ args.length then some (wrapping, ctx1)
          else
            let name := if ty.spelling = "" then none else some ty.spelling
            let t : Ty := ⟨name, ty.layout, .templateRef wrapping args, ty.isConst⟩
            let item := Item.new withId parentId (.type t)
            some (withId, { ctx1 with items := insertItem withId item ctx1.items })
        | _ => none
      | none => none

/-- The `location.visit` callback of `build_template_wrapper`: every
`TypeRef` child is resolved through `from_ty_or_ref` with the canonical
template declaration (`wrapping`) as parent, accumulating argument ids in
source order. -/
def walk_template_args (fuel : Nat) (ctx : Context) (wrapping : Nat)
    (children : List ChildCursor) : Option (List Nat × Context) :=
  match fuel with
  | 0 => none
  | f + 1 =>
    match children with
    | [] => some ([], ctx)
    | c :: rest =>
      if c.kind = CursorKind.typeRef then
        match from_ty_or_ref f ctx c.curType (some c.asCursor) (some wrapping) with
        | none => none
        | some (i, ctx1) =>
          (walk_template_args f ctx1 wrapping rest).map (fun p => (i :: p.1, p.2))
      else walk_template_args f ctx wrapping rest

/-- Modelled from the spec: `Item::from_ty_or_ref` (in the missing parse
module).  Before typerefs are collected it allocates a fresh id and inserts a
placeholder `UnresolvedTypeRef` node recording the raw type, location and
parent (registration skipped: no declaration is passed); after collection it
defers to `from_ty`. -/
def from_ty_or_ref (fuel : Nat) (ctx : Context) (ty : CType) (location : Option Cursor)
    (parentId : Option Nat) : Option (Nat × Context) :=
  match fuel with
  | 0 => none
  | f + 1 =>
    if ctx.collectedTyperefs then from_ty f ctx ty location parentId
    else
      let potentialId := ctx.counter
      let ctx1 := { ctx with counter := potentialId + 1 }
      let t : Ty := ⟨none, none, .unresolvedTypeRef ty location parentId, false⟩
      let item := Item.new potentialId (parentId.getD ctx1.currentModule) (.type t)
      (add_item ctx1 item none none).map (fun c => (potentialId, c))

/-- Modelled from the spec: `Item::from_ty` (in the missing parse module)
re-derives a referenced node through the standard resolution entry point
`builtin_or_resolved_ty`; on a miss the caller creates a fresh node for the
first-time-seen user-defined type. -/
def from_ty (fuel : Nat) (ctx : Context) (ty : CType) (location : Option Cursor)
    (parentId : Option Nat) : Option (Nat × Context) :=
  match fuel with
  | 0 => none
  | f + 1 =>
    let wid := ctx.counter
    let ctx1 := { ctx with counter := wid + 1 }
    match builtin_or_resolved_ty f ctx1 wid parentId ty location with
    | none => none
    | some (some id, ctx2) => some (id, ctx2)
    | some (none, ctx2) =>
      let t : Ty :=
        ⟨(if ty.spelling = "" then none else some ty.spelling), ty.layout, .otherKind, ty.isConst⟩
      let item := Item.new wid (parentId.getD ctx2.currentModule) (.type t)
      (add_item ctx2 item (some (declAsCursor ty.decl)) location).map (fun c => (wid, c))

end

/-- Ample fuel for one resolution chain; the source's recursion is bounded by
the finite clang AST, not by a counter. -/
def gen_fuel (ctx : Context) : Nat :=
  4 * ctx.items.length + 64

/-- The body of the `resolve_typerefs` loop: for each recorded tuple,
re-derive the referenced node with `from_ty` and overwrite the original
node's type kind in place with `ResolvedTypeRef`; any failure is fatal. -/
def resolve_typerefs_loop : List (Nat × CType × Option Cursor × Option Nat) → Context →
    Option Context
  | [], c => some c
  | tr :: rest, c =>
    match from_ty (gen_fuel c) c tr.2.1 tr.2.2.1 tr.2.2.2 with
    | none => none
    | some (resolved, c2) =>
      match set_type_kind c2 tr.1 (.resolvedTypeRef resolved) with
      | none => none
      | some c3 => resolve_typerefs_loop rest c3

/-- `BindgenContext::resolve_typerefs`: collect all `UnresolvedTypeRef`
entries (flipping the one-shot flag), then rewrite each recorded node in
place to `ResolvedTypeRef` of the re-derived id; the `expect`/`unwrap`
failures are `none`. -/
def resolve_typerefs (ctx : Context) : Option Context :=
  let pair := collect_typerefs ctx
  resolve_typerefs_loop pair.1 pair.2

/-- The per-item decision of `process_replacements`: only non-specialized
composites, template aliases and plain aliases are candidates; the canonical
name is then looked up in the replacement table, and a hit counts only when
it differs from the item's own id and still exists in the item map. -/
def replacement_target (ctx : Context) (id : Nat) (item : Item) : Option Nat :=
  match item.kind with
  | .type t =>
    let candidate : Bool :=
      match t.kind with
      | .comp ci => !ci.isTemplateSpecialization
      | .templateAlias _ _ => true
      | .alias _ _ => true
      | _ => false
    if candidate then
      match alookup ctx.replacements (canonical_name item) with
      | some replacement =>
        if replacement ≠ id ∧ (alookup ctx.items replacement).isSome
        then some replacement else none
      | none => none
    else none
  | _ => none

/-- The apply loop of `process_replacements`: rewrite each collected node's
kind in place to `ResolvedTypeRef(target)`. -/
def process_replacements_loop : List (Nat × Nat) → Context → Option Context
  | [], c => some c
  | pr :: rest, c =>
    match set_type_kind c pr.1 (.resolvedTypeRef pr.2) with
    | none => none
    | some c2 => process_replacements_loop rest c2

/-- `BindgenContext::process_replacements`: first collect every (id, target)
pair over the item map, then rewrite each collected node's kind in place to
`ResolvedTypeRef(target)`. -/
def process_replacements (ctx : Context) : Option Context :=
  if ctx.replacements.isEmpty then some ctx
  else
    process_replacements_loop
      (ctx.items.filterMap (fun p => (replacement_target ctx p.1 p.2).map (fun r => (p.1, r))))
      ctx

/-- `BindgenContext::gen`, restricted to its graph effect: when the one-shot
flag is still unset, run deferred-reference resolution and then replacement
substitution; the returned Bool records whether the passes ran.  (The syntex
expansion context juggled around the callback has no graph effect.) -/
def gen (ctx : Context) : Option (Context × Bool) :=
  if ctx.collectedTyperefs then some (ctx, false)
  else
    match resolve_typerefs ctx with
    | none => none
    | some c1 =>
      match process_replacements c1 with
      | none => none
      | some c2 => some (c2, true)

/-- Iterate `gen` a number of times, counting how often the passes ran. -/
def gen_iter : Nat → Context → Option (Context × Nat)
  | 0, ctx => some (ctx, 0)
  | n + 1, ctx =>
    match gen ctx with
    | none => none
    | some (c, b) =>
      match gen_iter n c with
      | none => none
      | some (c2, k) => some (c2, (if b then 1 else 0) + k)

/-- `BindgenContext::new`, restricted to graph state: issue id 0 to the root
module (its parent is itself) and insert it through `add_item`. -/
def new_context (options : Options) : Option Context :=
  let base : Context :=
    { items := [], types := [], rootModule := 0, currentModule := 0, replacements := [],
      collectedTyperefs := false, options := options, counter := 1 }
  let root := Item.new 0 0 (.module ⟨some ("root"), []⟩)
  add_item base root none none

/-- Sorted-set insertion (models `BTreeSet::insert` on the `ItemSet` alias). -/
def insertSet (x : Nat) : List Nat → List Nat
  | [] => [x]
  | y :: t =>
    if x < y then x :: y :: t
    else if x = y then y :: t
    else y :: insertSet x t

/-- Collect a list into an ordered set (ascending, duplicate-free). -/
def sortDedup (l : List Nat) : List Nat :=
  l.foldl (fun s x => insertSet x s) []

/-- Modelled from the spec: the node ids a type kind structurally references
(composite fields and template arguments, alias and resolved-ref targets,
template-ref targets and arguments); `collect_types` lives in the missing
`type_collector.rs`/`item.rs`. -/
def type_refs : TypeKind → List Nat
  | .comp ci => ci.fields ++ ci.templateArgs
  | .templateAlias inner args => inner :: args
  | .alias _ inner => [inner]
  | .pointer inner => [inner]
  | .resolvedTypeRef id => [id]
  | .templateRef w args => w :: args
  | _ => []

/-- Modelled from the spec: `collect_types` enumerates, as an ordered set,
the ids an item's structure directly references: its type structure for type
items, the signature for functions, the variable's type for variables. -/
def collect_types (item : Item) : List Nat :=
  sortDedup
    (match item.kind with
     | .type t => type_refs t.kind
     | .function f => f.signature
     | .var v => [v.tyRef]
     | .module _ => [])

/-- `id.collect_types(ctx, ...)` for a node id; a dangling id contributes
nothing (the source would panic resolving it, which cannot happen for ids in
the item map). -/
def item_refs (ctx : Context) (id : Nat) : List Nat :=
  match alookup ctx.items id with
  | some item => collect_types item
  | none => []

/-- Does every name filter come back empty? -/
def filters_all_empty (o : Options) : Bool :=
  o.whitelistedTypes.isEmpty && o.whitelistedFunctions.isEmpty && o.whitelistedVars.isEmpty

/-- The root-set filter of `whitelisted_items`: everything passes when no
filter is set; otherwise modules never pass, functions and variables pass by
canonical-name match against their filter, and types pass by name match
against the type filter or, for unnamed enums, by a variant name matching the
variable filter. -/
def root_matches (ctx : Context) (item : Item) : Bool :=
  if filters_all_empty ctx.options then true
  else
    let name := canonical_name item
    match item.kind with
    | .module _ => false
    | .function _ => ctx.options.whitelistedFunctions.contains name
    | .var _ => ctx.options.whitelistedVars.contains name
    | .type t =>
      if ctx.options.whitelistedTypes.contains name then true
      else
        match t.kind with
        | .enumTy e =>
          t.name.isNone &&
            e.variants.any (fun v => ctx.options.whitelistedVars.contains v.name)
        | _ => false

/-- The root ids of `whitelisted_items`, in item-map (ascending id) order —
which is also the order they are inserted into the `seen` set. -/
def whitelisted_roots (ctx : Context) : List Nat :=
  (ctx.items.filter (fun p => root_matches ctx p.2)).map (fun p => p.1)

/-- The state of `WhitelistedItemsIter`: the mark set and the mark stack.
`toIterate` is stored exactly like the source `Vec`: pushes append at the
end, pops take from the end. -/
structure WLState where
  seen : List Nat
  toIterate : List Nat
deriving DecidableEq, Repr

/-- `Vec::pop`: remove and return the last element. -/
def popVec : List Nat → Option (Nat × List Nat)
  | [] => none
  | [x] => some (x, [])
  | x :: y :: t =>
    match popVec (y :: t) with
    | some (z, rest) => some (z, x :: rest)
    | none => none

/-- The inner loop of `WhitelistedItemsIter::next`: for each collected
sub-type id (in ascending order), insert into `seen`; newly seen ids are also
pushed onto the stack. -/
def process_refs : List Nat → List Nat → List Nat → List Nat × List Nat
  | sn, st, [] => (sn, st)
  | sn, st, r :: rest =>
    if r ∈ sn then process_refs sn st rest
    else process_refs (insertSet r sn) (st ++ [r]) rest

/-- One `next()` call: pop an id, collect its referenced ids, mark-and-push
the new ones, yield the popped id. -/
def step (ctx : Context) (s : WLState) : Option (Nat × WLState) :=
  match popVec s.toIterate with
  | none => none
  | some (id, rest) =>
    let subTypes := item_refs ctx id
    let p := process_refs s.seen rest subTypes
    some (id, ⟨p.1, p.2⟩)

/-- Drain the iterator with the given fuel, returning the produced sequence
and the final state. -/
def run (ctx : Context) : Nat → WLState → List Nat × WLState
  | 0, s => ([], s)
  | f + 1, s =>
    match step ctx s with
    | none => ([], s)
    | some (id, s1) =>
      let p := run ctx f s1
      (id :: p.1, p.2)

/-- The initial `seen` set: the roots collected into an ordered set. -/
def init_seen (ctx : Context) : List Nat :=
  (whitelisted_roots ctx).foldl (fun s x => insertSet x s) []

/-- The initial iterator state: `to_iterate` is the reversed iteration of the
seen set (`seen.iter().rev().collect()`). -/
def init_state (ctx : Context) : WLState :=
  ⟨init_seen ctx, (init_seen ctx).reverse⟩

/-- Every id the traversal can ever see: the item-map keys plus everything
any item structurally references. -/
def u_list (ctx : Context) : List Nat :=
  ctx.items.map (fun p => p.1) ++ (ctx.items.map (fun p => collect_types p.2)).flatten

/-- Fuel sufficient to drain the iterator (proved below): the mark set can
grow at most to `u_list` and the stack starts at the root count. -/
def iter_fuel (ctx : Context) : Nat :=
  (u_list ctx).length + (init_seen ctx).length

/-- The full output of `whitelisted_items`: the yielded id sequence together
with the iterator's final state.  (The source additionally asserts that the
context is in the codegen phase with the root module current before building
the iterator; those assertions do not affect the produced sequence.) -/
def whitelisted_items (ctx : Context) : List Nat × WLState :=
  run ctx (iter_fuel ctx) (init_state ctx)

theorem alookup_ainsert_self {α β : Type} [DecidableEq α] (k : α) (v : β)
    (l : List (α × β)) : alookup (ainsert k v l) k = some v := by
  induction l with
  | nil => simp [ainsert, alookup]
  | cons h t ih =>
    obtain ⟨k', v'⟩ := h
    by_cases hk : k = k'
    · simp [ainsert, hk, alookup]
    · simp [ainsert, hk, alookup, ih]

theorem alookup_ainsert_ne {α β : Type} [DecidableEq α] {x k : α} (v : β)
    (l : List (α × β)) (h : x ≠ k) : alookup (ainsert k v l) x = alookup l x := by
  induction l with
  | nil => simp [ainsert, alookup, h]
  | cons p t ih =>
    obtain ⟨k', v'⟩ := p
    by_cases hk : k = k'
    · subst hk
      simp [ainsert, alookup, h]
    · by_cases hx : x = k'
      · simp [ainsert, hk, alookup, hx]
      · simp [ainsert, hk, alookup, hx, ih]

theorem alookup_mem {α β : Type} [DecidableEq α] {l : List (α × β)} {x : α} {v : β}
    (h : alookup l x = some v) : (x, v) ∈ l := by
  induction l with
  | nil => simp [alookup] at h
  | cons p t ih =>
    obtain ⟨k', v'⟩ := p
    by_cases hx : x = k'
    · subst hx
      simp [alookup] at h
      simp [h]
    · simp [alookup, hx] at h
      exact List.mem_cons_of_mem _ (ih h)

theorem alookup_insertItem_self (k : Nat) (v : Item) (l : List (Nat × Item)) :
    alookup (insertItem k v l) k = some v := by
  induction l with
  | nil => simp [insertItem, alookup]
  | cons p t ih =>
    obtain ⟨k', v'⟩ := p
    rcases Nat.lt_trichotomy k k' with h | h | h
    · simp [insertItem, h, alookup]
    · subst h
      simp [insertItem, alookup]
    · have h1 : ¬ k < k' := by omega
      have h2 : ¬ k = k' := by omega
      simp [insertItem, h1, h2, alookup, ih]

theorem alookup_insertItem_ne {x k : Nat} (v : Item) (l : List (Nat × Item))
    (h : x ≠ k) : alookup (insertItem k v l) x = alookup l x := by
  induction l with
  | nil => simp [insertItem, alookup, h]
  | cons p t ih =>
    obtain ⟨k', v'⟩ := p
    by_cases h1 : k < k'
    · simp [insertItem, h1, alookup, h]
    · by_cases h2 : k = k'
      · subst h2
        simp [insertItem, h1, alookup, h]
      · by_cases hx : x = k'
        · simp [insertItem, h1, h2, alookup, hx]
        · simp [insertItem, h1, h2, alookup, hx, ih]

theorem mem_insertItem {q : Nat × Item} {k : Nat} {v : Item}
    {l : List (Nat × Item)} (h : q ∈ insertItem k v l) : q = (k, v) ∨ q ∈ l := by
  induction l with
  | nil => simpa [insertItem] using h
  | cons p t ih =>
    obtain ⟨k', v'⟩ := p
    by_cases h1 : k < k'
    · simp [insertItem, h1] at h
      simp only [List.mem_cons]
      tauto
    · by_cases h2 : k = k'
      · subst h2
        simp [insertItem, h1] at h
        simp only [List.mem_cons]
        tauto
      · simp [insertItem, h1, h2] at h
        rcases h with h | h
        · exact Or.inr (by simp [h])
        · rcases ih h with h' | h'
          · exact Or.inl h'
          · exact Or.inr (List.mem_cons_of_mem _ h')

theorem mem_alookup {l : List (Nat × Item)} {x : Nat} {v : Item}
    (hwf : ItemsWF l) (h : (x, v) ∈ l) : alookup l x = some v := by
  induction l with
  | nil => simp at h
  | cons p t ih =>
    obtain ⟨k', v'⟩ := p
    rcases List.mem_cons.mp h with h0 | h0
    · simp only [Prod.mk.injEq] at h0
      simp [alookup, h0.1, h0.2]
    · have hlt : k' < x := by
        have := (List.pairwise_cons.mp hwf).1 (x, v) h0
        simpa using this
      have hx : x ≠ k' := by omega
      simp [alookup, hx]
      exact ih (List.pairwise_cons.mp hwf).2 h0

theorem insertItem_wf {l : List (Nat × Item)} (k : Nat) (v : Item)
    (h : ItemsWF l) : ItemsWF (insertItem k v l) := by
  induction l with
  | nil => simp [insertItem, ItemsWF]
  | cons p t ih =>
    obtain ⟨k', v'⟩ := p
    have hp := List.pairwise_cons.mp h
    by_cases h1 : k < k'
    · simp only [insertItem, if_pos h1]
      refine List.pairwise_cons.mpr ⟨?_, h⟩
      intro q hq
      rcases List.mem_cons.mp hq with h0 | h0
      · simp [h0, h1]
      · have := hp.1 q h0
        simp only at this ⊢
        omega
    · by_cases h2 : k = k'
      · subst h2
        simp only [insertItem, if_neg h1, if_pos rfl]
        exact List.pairwise_cons.mpr ⟨fun q hq => hp.1 q hq, hp.2⟩
      · have h3 : k' < k := by omega
        simp only [insertItem, if_neg h1, if_neg h2]
        refine List.pairwise_cons.mpr ⟨?_, ih hp.2⟩
        intro q hq
        rcases mem_insertItem hq with h0 | h0
        · simp [h0, h3]
        · exact hp.1 q h0

theorem length_insertItem_fresh {k : Nat} {l : List (Nat × Item)} (v : Item)
    (h : alookup l k = none) : (insertItem k v l).length = l.length + 1 := by
  induction l with
  | nil => simp [insertItem]
  | cons p t ih =>
    obtain ⟨k', v'⟩ := p
    by_cases h2 : k = k'
    · subst h2
      simp [alookup] at h
    · simp [alookup, h2] at h
      by_cases h1 : k < k'
      · simp [insertItem, h1]
      · simp [insertItem, h1, h2, ih h]

theorem mem_insertSet {y x : Nat} {l : List Nat} :
    y ∈ insertSet x l ↔ y = x ∨ y ∈ l := by
  induction l with
  | nil => simp [insertSet]
  | cons z t ih =>
    by_cases h1 : x < z
    · simp [insertSet, h1]
    · by_cases h2 : x = z
      · subst h2
        simp [insertSet, h1]
      · simp [insertSet, h1, h2, ih]
        tauto

theorem length_insertSet_le (x : Nat) (l : List Nat) :
    (insertSet x l).length ≤ l.length + 1 := by
  induction l with
  | nil => simp [insertSet]
  | cons z t ih =>
    by_cases h1 : x < z
    · simp [insertSet, h1]
    · by_cases h2 : x = z
      · simp [insertSet, h1, h2]
      · simp only [insertSet, if_neg h1, if_neg h2, List.length_cons]
        omega

theorem insertSet_of_gt {x : Nat} {l : List Nat} (h : ∀ y ∈ l, y < x) :
    insertSet x l = l ++ [x] := by
  induction l with
  | nil => simp [insertSet]
  | cons z t ih =>
    have hz : z < x := h z (by simp)
    have h1 : ¬ x < z := by omega
    have h2 : ¬ x = z := by omega
    simp only [insertSet, if_neg h1, if_neg h2, List.cons_append, List.cons.injEq, true_and]
    exact ih (fun y hy => h y (List.mem_cons_of_mem _ hy))

theorem mem_foldl_insertSet {l s : List Nat} {y : Nat} :
    y ∈ l.foldl (fun s x => insertSet x s) s ↔ y ∈ s ∨ y ∈ l := by
  induction l generalizing s with
  | nil => simp
  | cons z t ih =>
    simp only [List.foldl_cons, ih, mem_insertSet, List.mem_cons]
    tauto

theorem mem_sortDedup {l : List Nat} {y : Nat} : y ∈ sortDedup l ↔ y ∈ l := by
  simp [sortDedup, mem_foldl_insertSet]

theorem length_foldl_insertSet (l : List Nat) : ∀ s : List Nat,
    (l.foldl (fun s x => insertSet x s) s).length ≤ s.length + l.length := by
  induction l with
  | nil => simp
  | cons z t ih =>
    intro s
    have h1 := ih (insertSet z s)
    have h2 := length_insertSet_le z s
    simp only [List.foldl_cons, List.length_cons]
    omega

theorem foldl_insertSet_sorted : ∀ (l s : List Nat),
    (∀ a ∈ s, ∀ b ∈ l, a < b) → l.Pairwise (· < ·) →
    l.foldl (fun s x => insertSet x s) s = s ++ l := by
  intro l
  induction l with
  | nil => simp
  | cons z t ih =>
    intro s hcross hp
    have hz : insertSet z s = s ++ [z] :=
      insertSet_of_gt (fun y hy => hcross y hy z (by simp))
    have hp' := List.pairwise_cons.mp hp
    have : t.foldl (fun s x => insertSet x s) (s ++ [z]) = (s ++ [z]) ++ t := by
      refine ih (s ++ [z]) ?_ hp'.2
      intro a ha b hb
      rcases List.mem_append.mp ha with h0 | h0
      · exact hcross a h0 b (List.mem_cons_of_mem _ hb)
      · simp at h0
        subst h0
        exact hp'.1 b hb
    simp only [List.foldl_cons, hz, this, List.append_assoc, List.singleton_append]

theorem popVec_none : ∀ {l : List Nat}, popVec l = none → l = [] := by
  intro l
  induction l with
  | nil => intro h; rfl
  | cons x t ih =>
    intro h
    cases t with
    | nil => simp [popVec] at h
    | cons y u =>
      simp only [popVec] at h
      cases hp : popVec (y :: u) with
      | some p => rw [hp] at h; simp at h
      | none => exact absurd (ih hp) (by simp)

theorem popVec_some : ∀ {l : List Nat} {x : Nat} {rest : List Nat},
    popVec l = some (x, rest) → l = rest ++ [x] := by
  intro l
  induction l with
  | nil => intro x rest h; simp [popVec] at h
  | cons z t ih =>
    intro x rest h
    cases t with
    | nil =>
      simp [popVec] at h
      simp [h.1, h.2.symm]
    | cons y u =>
      simp only [popVec] at h
      cases hp : popVec (y :: u) with
      | none => rw [hp] at h; simp at h
      | some p =>
        obtain ⟨z', rest'⟩ := p
        rw [hp] at h
        simp only [Option.some.injEq, Prod.mk.injEq] at h
        obtain ⟨h1, h2⟩ := h
        subst h1
        subst h2
        have := ih hp
        simp [this]

theorem process_refs_seen_mono : ∀ (refs sn st : List Nat) (y : Nat), y ∈ sn →
    y ∈ (process_refs sn st refs).1 := by
  intro refs
  induction refs with
  | nil => intro sn st y hy; simpa [process_refs] using hy
  | cons r rest ih =>
    intro sn st y hy
    by_cases hr : r ∈ sn
    · simp only [process_refs, if_pos hr]
      exact ih sn st y hy
    · simp only [process_refs, if_neg hr]
      exact ih _ _ y (mem_insertSet.mpr (Or.inr hy))

theorem process_refs_stack_mono : ∀ (refs sn st : List Nat) (y : Nat), y ∈ st →
    y ∈ (process_refs sn st refs).2 := by
  intro refs
  induction refs with
  | nil => intro sn st y hy; simpa [process_refs] using hy
  | cons r rest ih =>
    intro sn st y hy
    by_cases hr : r ∈ sn
    · simp only [process_refs, if_pos hr]
      exact ih sn st y hy
    · simp only [process_refs, if_neg hr]
      exact ih _ _ y (by simp [hy])

theorem process_refs_refs_seen : ∀ (refs sn st : List Nat) (r : Nat), r ∈ refs →
    r ∈ (process_refs sn st refs).1 := by
  intro refs
  induction refs with
  | nil => intro sn st r hr; simp at hr
  | cons a rest ih =>
    intro sn st r hr
    rcases List.mem_cons.mp hr with h0 | h0
    · subst h0
      by_cases ha : r ∈ sn
      · simp only [process_refs, if_pos ha]
        exact process_refs_seen_mono rest sn st r ha
      · simp only [process_refs, if_neg ha]
        exact process_refs_seen_mono rest _ _ r (mem_insertSet.mpr (Or.inl rfl))
    · by_cases ha : a ∈ sn
      · simp only [process_refs, if_pos ha]
        exact ih sn st r h0
      · simp only [process_refs, if_neg ha]
        exact ih _ _ r h0

theorem process_refs_new_seen : ∀ (refs sn st : List Nat) (y : Nat),
    y ∈ (process_refs sn st refs).1 → y ∈ sn ∨ y ∈ (process_refs sn st refs).2 := by
  intro refs
  induction refs with
  | nil => intro sn st y hy; simp [process_refs] at hy ⊢; exact Or.inl hy
  | cons r rest ih =>
    intro sn st y hy
    by_cases hr : r ∈ sn
    · simp only [process_refs, if_pos hr] at hy ⊢
      exact ih sn st y hy
    · simp only [process_refs, if_neg hr] at hy ⊢
      rcases ih _ _ y hy with h0 | h0
      · rcases mem_insertSet.mp h0 with h1 | h1
        · subst h1
          exact Or.inr (process_refs_stack_mono rest _ _ y (by simp))
        · exact Or.inl h1
      · exact Or.inr h0

theorem process_refs_stack_sub : ∀ (refs sn st : List Nat) (y : Nat),
    y ∈ (process_refs sn st refs).2 → y ∈ st ∨ y ∈ (process_refs sn st refs).1 := by
  intro refs
  induction refs with
  | nil => intro sn st y hy; simp [process_refs] at hy ⊢; exact Or.inl hy
  | cons r rest ih =>
    intro sn st y hy
    by_cases hr : r ∈ sn
    · simp only [process_refs, if_pos hr] at hy ⊢
      exact ih sn st y hy
    · simp only [process_refs, if_neg hr] at hy ⊢
      rcases ih _ _ y hy with h0 | h0
      · rcases List.mem_append.mp h0 with h1 | h1
        · exact Or.inl h1
        · simp at h1
          subst h1
          exact Or.inr (process_refs_seen_mono rest _ _ y (mem_insertSet.mpr (Or.inl rfl)))
      · exact Or.inr h0

theorem toFinset_insertSet (r : Nat) (sn : List Nat) :
    (insertSet r sn).toFinset = insert r sn.toFinset := by
  ext y
  simp [List.mem_toFinset, mem_insertSet]

theorem process_refs_measure (U : Finset Nat) : ∀ (refs sn st : List Nat),
    (∀ r ∈ refs, r ∈ U) →
    (U \ (process_refs sn st refs).1.toFinset).card + (process_refs sn st refs).2.length ≤
      (U \ sn.toFinset).card + st.length := by
  intro refs
  induction refs with
  | nil => intro sn st _; simp [process_refs]
  | cons r rest ih =>
    intro sn st hsub
    by_cases hr : r ∈ sn
    · simp only [process_refs, if_pos hr]
      exact ih sn st (fun a ha => hsub a (List.mem_cons_of_mem _ ha))
    · simp only [process_refs, if_neg hr]
      have h1 := ih (insertSet r sn) (st ++ [r]) (fun a ha => hsub a (List.mem_cons_of_mem _ ha))
      have hrU : r ∈ U := hsub r (by simp)
      have hrs : r ∈ U \ sn.toFinset := by
        simp [Finset.mem_sdiff, hrU, List.mem_toFinset, hr]
      have hcard : (U \ (insertSet r sn).toFinset).card + 1 = (U \ sn.toFinset).card := by
        rw [toFinset_insertSet, Finset.sdiff_insert]
        exact Finset.card_erase_add_one hrs
      have hlen : (st ++ [r]).length = st.length + 1 := by simp
      omega

/-- The termination measure of the traversal: unmarked universe plus stack size. -/
def wl_measure (U : Finset Nat) (s : WLState) : Nat :=
  (U \ s.seen.toFinset).card + s.toIterate.length

theorem item_refs_sub_u (ctx : Context) (x : Nat) :
    ∀ r ∈ item_refs ctx x, r ∈ (u_list ctx).toFinset := by
  intro r hr
  unfold item_refs at hr
  cases ha : alookup ctx.items x with
  | none => rw [ha] at hr; simp at hr
  | some item =>
    rw [ha] at hr
    have hmem := alookup_mem ha
    simp only [u_list, List.mem_toFinset, List.mem_append, List.mem_flatten]
    right
    exact ⟨collect_types item, List.mem_map.mpr ⟨(x, item), hmem, rfl⟩, hr⟩

theorem step_shape {ctx : Context} {s : WLState} {id : Nat} {s1 : WLState}
    (h : step ctx s = some (id, s1)) :
    ∃ rest, popVec s.toIterate = some (id, rest) ∧
      s1 = ⟨(process_refs s.seen rest (item_refs ctx id)).1,
            (process_refs s.seen rest (item_refs ctx id)).2⟩ := by
  unfold step at h
  cases hp : popVec s.toIterate with
  | none => rw [hp] at h; simp at h
  | some p =>
    obtain ⟨id', rest⟩ := p
    rw [hp] at h
    simp only [Option.some.injEq, Prod.mk.injEq] at h
    obtain ⟨h1, h2⟩ := h
    subst h1
    exact ⟨rest, rfl, h2.symm⟩

theorem step_measure {ctx : Context} (U : Finset Nat)
    (hU : ∀ x, ∀ r ∈ item_refs ctx x, r ∈ U) {s : WLState} {id : Nat} {s1 : WLState}
    (h : step ctx s = some (id, s1)) : wl_measure U s1 < wl_measure U s := by
  obtain ⟨rest, hp, hs1⟩ := step_shape h
  have hlen : s.toIterate.length = rest.length + 1 := by
    rw [popVec_some hp]; simp
  have hm := process_refs_measure U (item_refs ctx id) s.seen rest (hU id)
  subst hs1
  unfold wl_measure
  simp only
  omega

theorem run_spec (ctx : Context) (U : Finset Nat)
    (hU : ∀ x, ∀ r ∈ item_refs ctx x, r ∈ U) :
    ∀ (f : Nat) (s : WLState), wl_measure U s ≤ f → (∀ x ∈ s.toIterate, x ∈ s.seen) →
    (run ctx f s).2.toIterate = [] ∧
    (∀ x ∈ s.toIterate, x ∈ (run ctx f s).1) ∧
    (∀ x, x ∈ (run ctx f s).2.seen ↔ (x ∈ s.seen ∨ x ∈ (run ctx f s).1)) ∧
    (∀ x ∈ (run ctx f s).1, ∀ r ∈ item_refs ctx x, r ∈ (run ctx f s).2.seen) := by
  intro f
  induction f with
  | zero =>
    intro s hm _
    have hit : s.toIterate = [] := by
      unfold wl_measure at hm
      have : s.toIterate.length = 0 := by omega
      exact List.length_eq_zero.mp this
    refine ⟨by simp [run, hit], ?_, ?_, ?_⟩
    · intro x hx; rw [hit] at hx; simp at hx
    · intro x; simp [run]
    · intro x hx; simp [run] at hx
  | succ f ih =>
    intro s hm hinv
    cases hstep : step ctx s with
    | none =>
      have hpop : popVec s.toIterate = none := by
        unfold step at hstep
        cases hp : popVec s.toIterate with
        | none => rfl
        | some p => rw [hp] at hstep; simp at hstep
      have hit : s.toIterate = [] := popVec_none hpop
      refine ⟨by simp [run, hstep, hit], ?_, ?_, ?_⟩
      · intro x hx; rw [hit] at hx; simp at hx
      · intro x; simp [run, hstep]
      · intro x hx; simp [run, hstep] at hx
    | some p =>
      obtain ⟨id, s1⟩ := p
      obtain ⟨rest, hpop, hs1⟩ := step_shape hstep
      have hts : s.toIterate = rest ++ [id] := popVec_some hpop
      have hid_seen : id ∈ s.seen := hinv id (by rw [hts]; simp)
      have hrest_st1 : ∀ x ∈ rest, x ∈ s1.toIterate := by
        intro x hx
        rw [hs1]
        exact process_refs_stack_mono _ _ _ x hx
      have hseen_mono : ∀ x ∈ s.seen, x ∈ s1.seen := by
        intro x hx
        rw [hs1]
        exact process_refs_seen_mono _ _ _ x hx
      have hinv1 : ∀ x ∈ s1.toIterate, x ∈ s1.seen := by
        intro x hx
        rw [hs1] at hx ⊢
        rcases process_refs_stack_sub _ _ _ x hx with h0 | h0
        · refine process_refs_seen_mono _ _ _ x ?_
          exact hinv x (by rw [hts]; exact List.mem_append.mpr (Or.inl h0))
        · exact h0
      have hm1 : wl_measure U s1 ≤ f := by
        have := step_measure U hU hstep
        omega
      obtain ⟨A, B, C, D⟩ := ih s1 hm1 hinv1
      have hrun : run ctx (f + 1) s = (id :: (run ctx f s1).1, (run ctx f s1).2) := by
        simp [run, hstep]
      refine ⟨by rw [hrun]; exact A, ?_, ?_, ?_⟩
      · intro x hx
        rw [hrun]
        rw [hts] at hx
        rcases List.mem_append.mp hx with h0 | h0
        · exact List.mem_cons_of_mem _ (B x (hrest_st1 x h0))
        · simp at h0
          subst h0
          simp
      · intro x
        rw [hrun]
        simp only
        rw [C x]
        constructor
        · intro h0
          rcases h0 with h0 | h0
          · rw [hs1] at h0
            rcases process_refs_new_seen _ _ _ x h0 with h1 | h1
            · exact Or.inl h1
            · have : x ∈ s1.toIterate := by rw [hs1]; exact h1
              exact Or.inr (List.mem_cons_of_mem _ (B x this))
          · exact Or.inr (List.mem_cons_of_mem _ h0)
        · intro h0
          rcases h0 with h0 | h0
          · exact Or.inl (hseen_mono x h0)
          · rcases List.mem_cons.mp h0 with h1 | h1
            · subst h1
              exact Or.inl (hseen_mono x hid_seen)
            · exact Or.inr h1
      · intro x hx r hr
        rw [hrun] at hx ⊢
        simp only
        rcases List.mem_cons.mp hx with h0 | h0
        · subst h0
          have : r ∈ s1.seen := by
            rw [hs1]
            exact process_refs_refs_seen _ _ _ r hr
          exact (C r).mpr ((C r).mp ((C r).mpr (Or.inl this)))
        · exact D x h0 r hr

theorem process_refs_noop : ∀ (refs sn st : List Nat), (∀ r ∈ refs, r ∈ sn) →
    process_refs sn st refs = (sn, st) := by
  intro refs
  induction refs with
  | nil => intro sn st _; rfl
  | cons r rest ih =>
    intro sn st h
    have hr : r ∈ sn := h r (by simp)
    simp only [process_refs, if_pos hr]
    exact ih sn st (fun a ha => h a (List.mem_cons_of_mem _ ha))

theorem run_no_new (ctx : Context) : ∀ (f : Nat) (sn l : List Nat), l.length ≤ f →
    (∀ x ∈ l, ∀ r ∈ item_refs ctx x, r ∈ sn) →
    run ctx f ⟨sn, l⟩ = (l.reverse, ⟨sn, []⟩) := by
  intro f
  induction f with
  | zero =>
    intro sn l hl _
    have : l = [] := List.length_eq_zero.mp (by omega)
    subst this
    simp [run]
  | succ f ih =>
    intro sn l hl hsub
    cases hp : popVec l with
    | none =>
      have : l = [] := popVec_none hp
      subst this
      simp [run, step, popVec]
    | some p =>
      obtain ⟨x, rest⟩ := p
      have hl' : l = rest ++ [x] := popVec_some hp
      have hx : x ∈ l := by rw [hl']; simp
      have hnoop : process_refs sn rest (item_refs ctx x) = (sn, rest) :=
        process_refs_noop _ _ _ (fun r hr => hsub x hx r hr)
      have hstep : step ctx ⟨sn, l⟩ = some (x, ⟨sn, rest⟩) := by
        simp only [step, hp, hnoop]
      have hrl : rest.length ≤ f := by
        rw [hl'] at hl
        simp at hl
        omega
      have hrec := ih sn rest hrl
        (fun a ha r hr => hsub a (by rw [hl']; exact List.mem_append.mpr (Or.inl ha)) r hr)
      simp only [run, hstep, hrec]
      rw [hl']
      simp

theorem roots_pairwise (ctx : Context) (hwf : ItemsWF ctx.items) :
    (whitelisted_roots ctx).Pairwise (· < ·) := by
  unfold whitelisted_roots
  exact List.pairwise_map.mpr (List.Pairwise.filter _ hwf)

theorem init_seen_eq (ctx : Context) (hwf : ItemsWF ctx.items) :
    init_seen ctx = whitelisted_roots ctx := by
  unfold init_seen
  exact foldl_insertSet_sorted _ [] (by simp) (roots_pairwise ctx hwf)

/-- Options with no filter set. -/
def emptyOpts : Options := ⟨[], [], []⟩

/-- The root module item. -/
def rootItem : Item := Item.new 0 0 (.module ⟨some ("root"), []⟩)

/-- A plain named type payload with no structural references. -/
def tyA : Ty := ⟨some ("A"), none, .otherKind, false⟩

/-- A context holding only the root module, with no filters configured. -/
def exC1 : Context :=
  { items := [(0, rootItem)], types := [], rootModule := 0, currentModule := 0,
    replacements := [], collectedTyperefs := false, options := emptyOpts, counter := 1 }

/-- A context holding the root module plus one type item, no filters. -/
def exC2 : Context :=
  { exC1 with items := [(0, rootItem), (1, Item.new 1 0 (.type tyA))], counter := 2 }

/-- C3: for every item graph, the id set yielded by the whitelisted-items
iterator is transitively closed — every id that a yielded id structurally
references (per `collect_types`) is also yielded — and the traversal
terminates with an empty stack, the mark set only ever growing inside the
finite universe of the graph. -/
theorem c3_closure_and_termination (ctx : Context) :
    (whitelisted_items ctx).2.toIterate = [] ∧
    (∀ id ∈ (whitelisted_items ctx).1, ∀ r ∈ item_refs ctx id,
      r ∈ (whitelisted_items ctx).1) := by
  have hU : ∀ x, ∀ r ∈ item_refs ctx x, r ∈ (u_list ctx).toFinset := item_refs_sub_u ctx
  have hinv0 : ∀ x ∈ (init_state ctx).toIterate, x ∈ (init_state ctx).seen := by
    intro x hx
    simp only [init_state] at hx ⊢
    exact List.mem_reverse.mp hx
  have hm0 : wl_measure ((u_list ctx).toFinset) (init_state ctx) ≤ iter_fuel ctx := by
    unfold wl_measure init_state iter_fuel
    simp only
    have h1 : ((u_list ctx).toFinset \ (init_seen ctx).toFinset).card ≤
        (u_list ctx).toFinset.card := Finset.card_le_card Finset.sdiff_subset
    have h2 : (u_list ctx).toFinset.card ≤ (u_list ctx).length := (u_list ctx).toFinset_card_le
    have h3 : ((init_seen ctx).reverse).length = (init_seen ctx).length := by simp
    omega
  obtain ⟨A, B, C, D⟩ :=
    run_spec ctx ((u_list ctx).toFinset) hU (iter_fuel ctx) (init_state ctx) hm0 hinv0
  unfold whitelisted_items
  refine ⟨A, ?_⟩
  intro id hid r hr
  have hseen := D id hid r hr
  rcases (C r).mp hseen with h0 | h0
  · refine B r ?_
    simp only [init_state] at h0 ⊢
    exact List.mem_reverse.mpr h0
  · exact h0

/-- C2(amended): the initial pop sequence of the whitelisted-items iterator
equals the root-set insertion order (ascending id order): the stack is built
as the reversed seen-set iteration and `Vec::pop` takes from the end, which
restores insertion order.  Stated for graphs whose roots reference only roots,
so that the whole output is the initial pop sequence. -/
theorem c2_pops_follow_insertion_order (ctx : Context) (hwf : ItemsWF ctx.items)
    (hclosed : ∀ id ∈ whitelisted_roots ctx, ∀ r ∈ item_refs ctx id,
      r ∈ whitelisted_roots ctx) :
    (whitelisted_items ctx).1 = whitelisted_roots ctx := by
  have hseen := init_seen_eq ctx hwf
  have hlen : ((whitelisted_roots ctx).reverse).length ≤ iter_fuel ctx := by
    unfold iter_fuel
    rw [hseen]
    simp
  have hsub : ∀ x ∈ (whitelisted_roots ctx).reverse, ∀ r ∈ item_refs ctx x,
      r ∈ whitelisted_roots ctx := by
    intro x hx
    exact hclosed x (List.mem_reverse.mp hx)
  have hrun := run_no_new ctx (iter_fuel ctx) (whitelisted_roots ctx)
    ((whitelisted_roots ctx).reverse) hlen hsub
  unfold whitelisted_items init_state
  rw [hseen, hrun]
  simp

/-- C2 witness: on a concrete two-root graph with no structural references the
iterator yields the roots in insertion order. -/
theorem c2_pops_follow_insertion_order_witness :
    (whitelisted_items exC2).1 = whitelisted_roots exC2 :=
  c2_pops_follow_insertion_order exC2 (by decide) (by decide)

/-- C2 counterexample: with two roots (inserted in ascending id order 0, 1)
the produced initial pop sequence is [0, 1] — the insertion order itself, not
its reverse [1, 0] as the claim states. -/
theorem c2_counterexample :
    (whitelisted_items exC2).1 = [0, 1] ∧
    (whitelisted_roots exC2).reverse = [1, 0] ∧
    (whitelisted_items exC2).1 ≠ (whitelisted_roots exC2).reverse := by
  refine ⟨by decide, by decide, by decide⟩

/-- The amended root-set specification, written from the spec's words as
corrected by the code: when all three filters are empty, every item — module
items included — is a root; otherwise modules are never roots, functions and
variables are roots exactly when their canonical name matches their filter,
and types are roots when their canonical name matches the type filter or when
they are anonymous enums with a variant name matching the variable filter. -/
def root_spec (ctx : Context) (id : Nat) : Prop :=
  ∃ item, alookup ctx.items id = some item ∧
    (if filters_all_empty ctx.options then True
     else
       match item.kind with
       | .module _ => False
       | .function _ => ctx.options.whitelistedFunctions.contains (canonical_name item) = true
       | .var _ => ctx.options.whitelistedVars.contains (canonical_name item) = true
       | .type t =>
         ctx.options.whitelistedTypes.contains (canonical_name item) = true ∨
         (t.name = none ∧
           match t.kind with
           | .enumTy e => ∃ v ∈ e.variants, ctx.options.whitelistedVars.contains v.name = true
           | _ => False))

theorem root_matches_iff (ctx : Context) (item : Item) :
    root_matches ctx item = true ↔
    (if filters_all_empty ctx.options then True
     else
       match item.kind with
       | .module _ => False
       | .function _ => ctx.options.whitelistedFunctions.contains (canonical_name item) = true
       | .var _ => ctx.options.whitelistedVars.contains (canonical_name item) = true
       | .type t =>
         ctx.options.whitelistedTypes.contains (canonical_name item) = true ∨
         (t.name = none ∧
           match t.kind with
           | .enumTy e => ∃ v ∈ e.variants, ctx.options.whitelistedVars.contains v.name = true
           | _ => False)) := by
  obtain ⟨iid, ipar, ikind⟩ := item
  cases hfe : filters_all_empty ctx.options with
  | true => simp [root_matches, hfe]
  | false =>
    cases ikind with
    | module m => simp [root_matches, hfe]
    | function fn => simp [root_matches, hfe]
    | var v => simp [root_matches, hfe]
    | type t =>
      obtain ⟨tn, tl, tk, tc⟩ := t
      by_cases hc :
          canonical_name ⟨iid, ipar, .type ⟨tn, tl, tk, tc⟩⟩ ∈ ctx.options.whitelistedTypes
      · cases tk <;> simp [root_matches, hfe, hc]
      · cases tk <;>
          simp [root_matches, hfe, hc, List.any_eq_true, Option.isNone_iff_eq_none]

/-- C1(amended): the root set of `whitelisted_items` is characterized by
`root_spec` — in particular, when all filters are empty every item (modules
included) is a root, and the anonymous-enum variant match also makes a type a
root without its own name matching any filter. -/
theorem c1_root_set_characterization (ctx : Context) (hwf : ItemsWF ctx.items) (id : Nat) :
    id ∈ whitelisted_roots ctx ↔ root_spec ctx id := by
  unfold whitelisted_roots root_spec
  constructor
  · intro h
    obtain ⟨p, hp, hid⟩ := List.mem_map.mp h
    have hfilter := List.mem_filter.mp hp
    refine ⟨p.2, ?_, (root_matches_iff ctx p.2).mp hfilter.2⟩
    rw [← hid]
    exact mem_alookup hwf hfilter.1
  · rintro ⟨item, hl, hspec⟩
    exact List.mem_map.mpr
      ⟨(id, item),
       List.mem_filter.mpr ⟨alookup_mem hl, (root_matches_iff ctx item).mpr hspec⟩, rfl⟩

/-- A context with one function item and a function-name filter set. -/
def exWit : Context :=
  { items := [(0, rootItem), (1, Item.new 1 0 (.function ⟨"f", []⟩))], types := [],
    rootModule := 0, currentModule := 0, replacements := [],
    collectedTyperefs := false, options := ⟨[], ["f"], []⟩, counter := 2 }

/-- C1 witness: on a concrete graph with a function filter, the matching
function item is in the root set, via the characterization. -/
theorem c1_root_set_characterization_witness : 1 ∈ whitelisted_roots exWit :=
  (c1_root_set_characterization exWit (by decide) 1).mpr
    ⟨Item.new 1 0 (.function ⟨"f", []⟩), by decide, by
      simp [exWit, filters_all_empty, Item.new, canonical_name]⟩

/-- C1 counterexample: with all filters empty, the root module — an item of
kind Module — is in the reachability root set, contradicting the claim that
the root set never contains a Module item. -/
theorem c1_counterexample :
    whitelisted_roots exC1 = [0] ∧
    resolve_item_fallible exC1 0 = some rootItem ∧
    rootItem.kind = ItemKind.module ⟨some ("root"), []⟩ :=
  ⟨by decide, by decide, rfl⟩

theorem add_item_success {ctx : Context} {item : Item} (declaration location : Option Cursor)
    (h : alookup ctx.items item.id = none) :
    ∃ ts, add_item ctx item declaration location =
      some { ctx with items := insertItem item.id item ctx.items, types := ts } := by
  simp only [add_item, h]
  cases declaration with
  | none => exact ⟨ctx.types, rfl⟩
  | some d0 =>
    simp only
    repeat' split
    all_goals exact ⟨_, rfl⟩

/-- C4: inserting an item whose id is already a key of the item map is fatal
(the `assert!`) for both `add_item` and the builtin insertion path; with a
fresh id both insert the item so that the id maps to exactly that item. -/
theorem c4_duplicate_insert_fatal (ctx : Context) (item : Item)
    (declaration location : Option Cursor) :
    ((alookup ctx.items item.id).isSome →
      add_item ctx item declaration location = none ∧ add_builtin_item ctx item = none) ∧
    (alookup ctx.items item.id = none →
      (∃ c, add_item ctx item declaration location = some c ∧
        alookup c.items item.id = some item) ∧
      (∃ c, add_builtin_item ctx item = some c ∧ alookup c.items item.id = some item)) := by
  constructor
  · intro h
    obtain ⟨old, hold⟩ := Option.isSome_iff_exists.mp h
    constructor
    · simp [add_item, hold]
    · simp [add_builtin_item, hold]
  · intro h
    constructor
    · obtain ⟨ts, hts⟩ := add_item_success declaration location h
      exact ⟨_, hts, alookup_insertItem_self _ _ _⟩
    · refine ⟨{ ctx with items := insertItem item.id item ctx.items }, ?_, ?_⟩
      · simp [add_builtin_item, h]
      · exact alookup_insertItem_self _ _ _

/-- C4 witness: on the concrete one-item context, re-inserting the root item
is fatal, while inserting a fresh item succeeds and is retrievable. -/
theorem c4_duplicate_insert_fatal_witness :
    add_item exC1 rootItem none none = none ∧
    (∃ c, add_builtin_item exC1 (Item.new 1 0 (.type tyA)) = some c ∧
      alookup c.items 1 = some (Item.new 1 0 (.type tyA))) :=
  ⟨((c4_duplicate_insert_fatal exC1 rootItem none none).1 (by decide)).1,
   ((c4_duplicate_insert_fatal exC1 (Item.new 1 0 (.type tyA)) none none).2 (by decide)).2⟩

theorem replace_present {ctx : Context} {n : String} {z : Nat} (y : Nat)
    (h : alookup ctx.replacements n = some z) : replace ctx n y = ctx := by
  unfold replace
  rw [h]

/-- C5: for a name with no prior entry, `replace(name, x)` stores x, a second
`replace(name, y)` leaves the whole context unchanged (first writer wins, the
duplicate only logs), and afterwards `is_replaced_type(name, id)` is true
exactly when the stored id x differs from id. -/
theorem c5_replace_first_wins (ctx : Context) (name : String) (x y id : Nat)
    (h : alookup ctx.replacements name = none) :
    alookup (replace ctx name x).replacements name = some x ∧
    replace (replace ctx name x) name y = replace ctx name x ∧
    alookup (replace (replace ctx name x) name y).replacements name = some x ∧
    (is_replaced_type (replace (replace ctx name x) name y) name id = true ↔ x ≠ id) := by
  have h1 : (replace ctx name x).replacements = ainsert name x ctx.replacements := by
    unfold replace
    rw [h]
  have h2 : alookup (replace ctx name x).replacements name = some x := by
    rw [h1]
    exact alookup_ainsert_self _ _ _
  have h3 : replace (replace ctx name x) name y = replace ctx name x :=
    replace_present y h2
  refine ⟨h2, h3, by rw [h3]; exact h2, ?_⟩
  unfold is_replaced_type
  rw [h3, h2]
  simp [bne_iff_ne]

/-- C5 witness: concrete double registration under one name keeps the first
target and `is_replaced_type` compares against it. -/
theorem c5_replace_first_wins_witness :
    alookup (replace (replace exC1 ("Foo") 3) ("Foo") 4).replacements ("Foo") = some 3 ∧
    is_replaced_type (replace (replace exC1 ("Foo") 3) ("Foo") 4) ("Foo") 5 = true :=
  ⟨(c5_replace_first_wins exC1 ("Foo") 3 4 5 (by decide)).2.2.1,
   ((c5_replace_first_wins exC1 ("Foo") 3 4 5 (by decide)).2.2.2).mpr (by decide)⟩

theorem add_item_shape {ctx : Context} {item : Item} {d l : Option Cursor} {c : Context}
    (h : add_item ctx item d l = some c) :
    ∃ ts, c = { ctx with items := insertItem item.id item ctx.items, types := ts } := by
  cases ha : alookup ctx.items item.id with
  | some v => simp [add_item, ha] at h
  | none =>
    obtain ⟨ts, hts⟩ := add_item_success d l ha
    rw [hts] at h
    exact ⟨ts, (Option.some.inj h).symm⟩

theorem add_builtin_item_shape {ctx : Context} {item : Item} {c : Context}
    (h : add_builtin_item ctx item = some c) :
    c = { ctx with items := insertItem item.id item ctx.items } := by
  cases ha : alookup ctx.items item.id with
  | some v => simp [add_builtin_item, ha] at h
  | none =>
    simp only [add_builtin_item, ha] at h
    exact (Option.some.inj h).symm

theorem build_ty_wrapper_shape {ctx : Context} {w wid : Nat} {pid : Option Nat} {ty : CType}
    {i : Nat} {c : Context} (h : build_ty_wrapper ctx w wid pid ty = some (i, c)) :
    i = w ∧
    c = { ctx with
          items := insertItem w
                     (Item.new w (pid.getD ctx.currentModule)
                       (.type ⟨some ty.spelling, ty.layout, .resolvedTypeRef wid, ty.isConst⟩))
                     ctx.items } := by
  unfold build_ty_wrapper at h
  obtain ⟨c2, hb, heq⟩ := Option.map_eq_some'.mp h
  injection heq with e1 e2
  subst e1
  subst e2
  exact ⟨rfl, add_builtin_item_shape hb⟩

theorem build_builtin_ty_flag {ctx : Context} {ty : CType} {r : Option Nat} {c : Context}
    (h : build_builtin_ty ctx ty = some (r, c)) :
    c.collectedTyperefs = ctx.collectedTyperefs := by
  unfold build_builtin_ty at h
  cases hk : builtin_ty_kind ty.kind with
  | none =>
    simp only [hk] at h
    injection h with h1
    injection h1 with e1 e2
    rw [← e2]
  | some tk =>
    simp only [hk] at h
    obtain ⟨c2, hb, heq⟩ := Option.map_eq_some'.mp h
    injection heq with e1 e2
    rw [← e2, add_builtin_item_shape hb]

theorem set_type_kind_shape {ctx : Context} {id : Nat} {k : TypeKind} {c : Context}
    (h : set_type_kind ctx id k = some c) :
    ∃ it t, alookup ctx.items id = some it ∧ it.kind = .type t ∧
      c = { ctx with
        items := insertItem id { it with kind := .type { t with kind := k } } ctx.items } := by
  unfold set_type_kind at h
  cases ha : alookup ctx.items id with
  | none => simp [ha] at h
  | some it =>
    simp only [ha] at h
    cases hk : it.kind with
    | module m => simp [hk] at h
    | function fn => simp [hk] at h
    | var v => simp [hk] at h
    | type t =>
      simp only [hk] at h
      exact ⟨it, t, rfl, hk, (Option.some.inj h).symm⟩

theorem set_type_kind_flag {ctx : Context} {id : Nat} {k : TypeKind} {c : Context}
    (h : set_type_kind ctx id k = some c) : c.collectedTyperefs = ctx.collectedTyperefs := by
  obtain ⟨it, t, _, _, hc⟩ := set_type_kind_shape h
  rw [hc]

theorem flag_eq_all : ∀ f : Nat,
    (∀ ctx w p ty l r c, builtin_or_resolved_ty f ctx w p ty l = some (r, c) →
      c.collectedTyperefs = ctx.collectedTyperefs) ∧
    (∀ ctx w wr pid ty loc i c, build_template_wrapper f ctx w wr pid ty loc = some (i, c) →
      c.collectedTyperefs = ctx.collectedTyperefs) ∧
    (∀ ctx wr ch args c, walk_template_args f ctx wr ch = some (args, c) →
      c.collectedTyperefs = ctx.collectedTyperefs) ∧
    (∀ ctx ty l p i c, from_ty_or_ref f ctx ty l p = some (i, c) →
      c.collectedTyperefs = ctx.collectedTyperefs) ∧
    (∀ ctx ty l p i c, from_ty f ctx ty l p = some (i, c) →
      c.collectedTyperefs = ctx.collectedTyperefs) := by
  intro f
  induction f with
  | zero =>
    refine ⟨?_, ?_, ?_, ?_, ?_⟩
    · intro ctx w p ty l r c h
      simp [builtin_or_resolved_ty] at h
    · intro ctx w wr pid ty loc i c h
      simp [build_template_wrapper] at h
    · intro ctx wr ch args c h
      simp [walk_template_args] at h
    · intro ctx ty l p i c h
      simp [from_ty_or_ref] at h
    · intro ctx ty l p i c h
      simp [from_ty] at h
  | succ f ih =>
    obtain ⟨ihB, ihT, ihW, ihFR, ihF⟩ := ih
    refine ⟨?_, ?_, ?_, ?_, ?_⟩
    · intro ctx w p ty l r c h
      unfold builtin_or_resolved_ty at h
      simp only at h
      repeat' split at h
      all_goals
        first
        | exact build_builtin_ty_flag h
        | (obtain ⟨⟨i2, c2⟩, hsub, heq⟩ := Option.map_eq_some'.mp h
           injection heq with e1 e2
           rw [← e2]
           first
           | exact ihT _ _ _ _ _ _ _ _ hsub
           | rw [(build_ty_wrapper_shape hsub).2])
    · intro ctx w wr pid ty loc i c h
      unfold build_template_wrapper at h
      cases hwalk : walk_template_args f ctx wr loc.children with
      | none => simp [hwalk] at h
      | some pr =>
        obtain ⟨args, ctx1⟩ := pr
        have hflag1 : ctx1.collectedTyperefs = ctx.collectedTyperefs :=
          ihW _ _ _ _ _ hwalk
        simp only [hwalk] at h
        cases hres : resolve_type ctx1 wr with
        | none => simp [hres] at h
        | some wt =>
          simp only [hres] at h
          split at h
          · split at h
            · injection h with h1
              injection h1 with e1 e2
              rw [← e2]
              exact hflag1
            · injection h with h1
              injection h1 with e1 e2
              rw [← e2]
              exact hflag1
          · exact Option.noConfusion h
    · intro ctx wr ch args c h
      cases ch with
      | nil =>
        unfold walk_template_args at h
        injection h with h1
        injection h1 with e1 e2
        rw [← e2]
      | cons c0 rest =>
        unfold walk_template_args at h
        by_cases hk : c0.kind = CursorKind.typeRef
        · simp only [if_pos hk] at h
          cases hf : from_ty_or_ref f ctx c0.curType (some c0.asCursor) (some wr) with
          | none => simp [hf] at h
          | some pr =>
            obtain ⟨i1, ctx1⟩ := pr
            simp only [hf] at h
            obtain ⟨⟨args2, c2⟩, hw2, heq⟩ := Option.map_eq_some'.mp h
            injection heq with e1 e2
            rw [← e2]
            exact (ihW _ _ _ _ _ hw2).trans (ihFR _ _ _ _ _ _ hf)
        · simp only [if_neg hk] at h
          exact ihW _ _ _ _ _ h
    · intro ctx ty l p i c h
      unfold from_ty_or_ref at h
      by_cases hflag : ctx.collectedTyperefs = true
      · simp only [if_pos hflag] at h
        exact ihF _ _ _ _ _ _ h
      · simp only [if_neg hflag] at h
        obtain ⟨c2, ha, heq⟩ := Option.map_eq_some'.mp h
        obtain ⟨ts, hts⟩ := add_item_shape ha
        injection heq with e1 e2
        rw [← e2, hts]
    · intro ctx ty l p i c h
      unfold from_ty at h
      simp only at h
      cases hb : builtin_or_resolved_ty f { ctx with counter := ctx.counter + 1 }
          ctx.counter p ty l with
      | none => simp [hb] at h
      | some pr =>
        obtain ⟨r2, c2⟩ := pr
        have hflag20 := ihB _ _ _ _ _ _ _ hb
        have hflag2 : c2.collectedTyperefs = ctx.collectedTyperefs := hflag20
        cases r2 with
        | some id2 =>
          simp only [hb] at h
          injection h with h1
          injection h1 with e1 e2
          rw [← e2]
          exact hflag2
        | none =>
          simp only [hb] at h
          obtain ⟨c3, ha, heq⟩ := Option.map_eq_some'.mp h
          obtain ⟨ts, hts⟩ := add_item_shape ha
          injection heq with e1 e2
          rw [← e2, hts]
          exact hflag2

theorem resolve_loop_flag : ∀ (trs : List (Nat × CType × Option Cursor × Option Nat))
    (a c : Context), resolve_typerefs_loop trs a = some c →
    c.collectedTyperefs = a.collectedTyperefs := by
  intro trs
  induction trs with
  | nil =>
    intro a c h
    unfold resolve_typerefs_loop at h
    injection h with h1
    rw [← h1]
  | cons tr rest ih =>
    intro a c h
    unfold resolve_typerefs_loop at h
    cases hf : from_ty (gen_fuel a) a tr.2.1 tr.2.2.1 tr.2.2.2 with
    | none => simp [hf] at h
    | some pr =>
      obtain ⟨res, c2⟩ := pr
      simp only [hf] at h
      cases hs : set_type_kind c2 tr.1 (.resolvedTypeRef res) with
      | none => simp [hs] at h
      | some c3 =>
        simp only [hs] at h
        have e1 := (flag_eq_all (gen_fuel a)).2.2.2.2 _ _ _ _ _ _ hf
        have e2 := set_type_kind_flag hs
        have e3 := ih _ _ h
        rw [e3, e2, e1]

theorem resolve_typerefs_flag {ctx c : Context} (h : resolve_typerefs ctx = some c) :
    c.collectedTyperefs = true := by
  unfold resolve_typerefs at h
  exact resolve_loop_flag _ _ _ h

theorem process_loop_flag : ∀ (prs : List (Nat × Nat)) (a c : Context),
    process_replacements_loop prs a = some c →
    c.collectedTyperefs = a.collectedTyperefs := by
  intro prs
  induction prs with
  | nil =>
    intro a c h
    unfold process_replacements_loop at h
    injection h with h1
    rw [← h1]
  | cons pr rest ih =>
    intro a c h
    unfold process_replacements_loop at h
    cases hs : set_type_kind a pr.1 (.resolvedTypeRef pr.2) with
    | none => simp [hs] at h
    | some c2 =>
      simp only [hs] at h
      rw [ih _ _ h, set_type_kind_flag hs]

theorem process_replacements_flag {ctx c : Context} (h : process_replacements ctx = some c) :
    c.collectedTyperefs = ctx.collectedTyperefs := by
  unfold process_replacements at h
  split at h
  · injection h with h1
    rw [← h1]
  · exact process_loop_flag _ _ _ h

theorem gen_shape {ctx : Context} {c : Context} {b : Bool} (h : gen ctx = some (c, b)) :
    c.collectedTyperefs = true ∧ (b = true ↔ ctx.collectedTyperefs = false) := by
  unfold gen at h
  split at h
  · next hflag =>
    injection h with h1
    injection h1 with e1 e2
    rw [← e1, ← e2]
    simp [hflag]
  · next hflag =>
    cases hr : resolve_typerefs ctx with
    | none => simp [hr] at h
    | some c1 =>
      simp only [hr] at h
      cases hp : process_replacements c1 with
      | none => simp [hp] at h
      | some c2 =>
        simp only [hp] at h
        injection h with h1
        injection h1 with e1 e2
        rw [← e1, ← e2]
        refine ⟨?_, by simp [Bool.not_eq_true] at hflag; simp [hflag]⟩
        rw [process_replacements_flag hp]
        exact resolve_typerefs_flag hr

theorem gen_skip {ctx : Context} (h : ctx.collectedTyperefs = true) :
    gen ctx = some (ctx, false) := by
  unfold gen
  rw [if_pos h]

theorem gen_iter_skip : ∀ (n : Nat) (ctx : Context), ctx.collectedTyperefs = true →
    gen_iter n ctx = some (ctx, 0) := by
  intro n
  induction n with
  | zero => intro ctx _; rfl
  | succ n ih =>
    intro ctx h
    unfold gen_iter
    simp [gen_skip h, ih ctx h]

/-- C6: typeref collection is a one-way, one-shot transition: a fresh context
starts with the flag unset, `collect_typerefs` flips it to true, any
successful `gen` leaves it true (and runs the passes exactly when it was
false), a `gen` on a context whose flag is already set skips the passes and
changes nothing, and across any number of `gen` calls the passes run at most
once. -/
theorem c6_one_shot_typeref_collection :
    (∀ opts, (new_context opts).map (fun c => c.collectedTyperefs) = some false) ∧
    (∀ ctx, (collect_typerefs ctx).2.collectedTyperefs = true) ∧
    (∀ ctx c b, gen ctx = some (c, b) →
      c.collectedTyperefs = true ∧ (b = true ↔ ctx.collectedTyperefs = false)) ∧
    (∀ ctx, ctx.collectedTyperefs = true → gen ctx = some (ctx, false)) ∧
    (∀ n ctx c k, gen_iter n ctx = some (c, k) → k ≤ 1) := by
  refine ⟨fun opts => rfl, fun ctx => rfl, fun ctx c b h => gen_shape h,
    fun ctx h => gen_skip h, ?_⟩
  intro n
  cases n with
  | zero =>
    intro ctx c k h
    injection h with h1
    injection h1 with e1 e2
    omega
  | succ n =>
    intro ctx c k h
    unfold gen_iter at h
    cases hg : gen ctx with
    | none => simp [hg] at h
    | some pr =>
      obtain ⟨c1, b⟩ := pr
      simp only [hg] at h
      have hflag1 : c1.collectedTyperefs = true := (gen_shape hg).1
      simp only [gen_iter_skip n c1 hflag1] at h
      injection h with h1
      injection h1 with e1 e2
      cases b <;> simp at e2 <;> omega

/-- C6 witness: a context whose flag is already set is left untouched by
`gen`, which reports that the passes did not run. -/
theorem c6_one_shot_typeref_collection_witness :
    gen { exC1 with collectedTyperefs := true } =
      some ({ exC1 with collectedTyperefs := true }, false) :=
  c6_one_shot_typeref_collection.2.2.2.1 _ rfl

/-- The per-item outcome of a replacement hit: the type kind is rewritten in
place to `ResolvedTypeRef r`, everything else about the item is untouched
(non-type items are returned unchanged; a hit never occurs for them). -/
def rewrite_kind (r : Nat) (it : Item) : Item :=
  match it.kind with
  | .type t => { it with kind := .type { t with kind := .resolvedTypeRef r } }
  | _ => it

theorem alookup_eq_none_of {α β : Type} [DecidableEq α] {l : List (α × β)} {x : α}
    (h : ∀ p ∈ l, p.1 ≠ x) : alookup l x = none := by
  induction l with
  | nil => rfl
  | cons p t ih =>
    obtain ⟨k, v⟩ := p
    have hk : k ≠ x := h (k, v) (by simp)
    have hxk : ¬ x = k := fun hx => hk hx.symm
    simp only [alookup, if_neg hxk]
    exact ih (fun q hq => h q (List.mem_cons_of_mem _ hq))

theorem replacement_target_type {ctx : Context} {i r : Nat} {it : Item}
    (h : replacement_target ctx i it = some r) : ∃ t, it.kind = .type t := by
  unfold replacement_target at h
  cases hk : it.kind with
  | type t => exact ⟨t, rfl⟩
  | module m => rw [hk] at h; simp at h
  | function fn => rw [hk] at h; simp at h
  | var v => rw [hk] at h; simp at h

theorem process_loop_spec : ∀ (prs : List (Nat × Nat)) (a : Context),
    ItemsWF a.items →
    prs.Pairwise (fun x y => x.1 ≠ y.1) →
    (∀ pr ∈ prs, ∃ it t, alookup a.items pr.1 = some it ∧ it.kind = ItemKind.type t) →
    ∃ c, process_replacements_loop prs a = some c ∧ ItemsWF c.items ∧
      (∀ j, alookup c.items j =
        match alookup prs j with
        | some r => (alookup a.items j).map (rewrite_kind r)
        | none => alookup a.items j) := by
  intro prs
  induction prs with
  | nil =>
    intro a hwf _ _
    refine ⟨a, rfl, hwf, ?_⟩
    intro j
    simp [alookup]
  | cons pr0 rest ih =>
    intro a hwf hpw hty
    obtain ⟨i0, r0⟩ := pr0
    obtain ⟨it, t, hit, hkind⟩ := hty (i0, r0) (by simp)
    have hrw : rewrite_kind r0 it = { it with kind := .type { t with kind := .resolvedTypeRef r0 } } := by
      unfold rewrite_kind
      rw [hkind]
    have hset : set_type_kind a i0 (.resolvedTypeRef r0) =
        some { a with items := insertItem i0 (rewrite_kind r0 it) a.items } := by
      unfold set_type_kind
      simp only [hit]
      simp only [hkind]
      rw [hrw]
    have hwf2 : ItemsWF (insertItem i0 (rewrite_kind r0 it) a.items) :=
      insertItem_wf _ _ hwf
    have hpw' := List.pairwise_cons.mp hpw
    have hty2 : ∀ pr ∈ rest, ∃ it2 t2,
        alookup (insertItem i0 (rewrite_kind r0 it) a.items) pr.1 = some it2 ∧
        it2.kind = ItemKind.type t2 := by
      intro pr hpr
      obtain ⟨it2, t2, h1, h2⟩ := hty pr (List.mem_cons_of_mem _ hpr)
      have hne : pr.1 ≠ i0 := (hpw'.1 pr hpr).symm
      exact ⟨it2, t2, by rw [alookup_insertItem_ne _ _ hne]; exact h1, h2⟩
    obtain ⟨c, hc, hwfc, hchar⟩ :=
      ih { a with items := insertItem i0 (rewrite_kind r0 it) a.items } hwf2 hpw'.2 hty2
    refine ⟨c, ?_, hwfc, ?_⟩
    · unfold process_replacements_loop
      rw [hset]
      exact hc
    · intro j
      by_cases hj : j = i0
      · subst hj
        have hrest : alookup rest j = none :=
          alookup_eq_none_of (fun q hq => (hpw'.1 q hq).symm)
        rw [hchar j, hrest]
        simp only [alookup, if_pos rfl]
        rw [alookup_insertItem_self, hit]
        rfl
      · have hcons : alookup ((i0, r0) :: rest) j = alookup rest j := by
          simp [alookup, hj]
        rw [hchar j, hcons]
        cases hr : alookup rest j <;>
          simp only [alookup_insertItem_ne _ _ hj]

/-- Lookup in an empty association list is always `none`. -/
theorem alookup_of_isEmpty {α β : Type} [DecidableEq α] {l : List (α × β)}
    (h : l.isEmpty = true) (x : α) : alookup l x = none := by
  cases l with
  | nil => rfl
  | cons p t => simp at h

theorem alookup_filterMap_target (ctx : Context) {l : List (Nat × Item)}
    (hwf : ItemsWF l) (j : Nat) :
    alookup (l.filterMap (fun p => (replacement_target ctx p.1 p.2).map (fun r => (p.1, r)))) j
      = (match alookup l j with
         | some it => replacement_target ctx j it
         | none => none) := by
  induction l with
  | nil => rfl
  | cons p t ih =>
    obtain ⟨k, it⟩ := p
    have hp := List.pairwise_cons.mp hwf
    by_cases hj : j = k
    · subst hj
      have hnone : alookup (t.filterMap
          (fun p => (replacement_target ctx p.1 p.2).map (fun r => (p.1, r)))) j = none := by
        refine alookup_eq_none_of ?_
        intro q hq
        obtain ⟨p2, hp2, hfq⟩ := List.mem_filterMap.mp hq
        obtain ⟨r2, _, hpr⟩ := Option.map_eq_some'.mp hfq
        have : q.1 = p2.1 := by rw [← hpr]
        rw [this]
        have := hp.1 p2 hp2
        omega
      cases ht : replacement_target ctx j it with
      | none =>
        simp only [List.filterMap_cons, ht, Option.map_none']
        rw [hnone]
        simp only [alookup, if_pos rfl]
        exact ht.symm
      | some r =>
        simp only [List.filterMap_cons, ht, Option.map_some']
        simp only [alookup, if_pos rfl]
        exact ht.symm
    · cases ht : replacement_target ctx k it with
      | none =>
        simp only [List.filterMap_cons, ht, Option.map_none']
        rw [ih hp.2]
        simp [alookup, hj]
      | some r =>
        simp only [List.filterMap_cons, ht, Option.map_some']
        simp only [alookup, if_neg hj]
        exact ih hp.2

theorem prs_pairwise (ctx : Context) {l : List (Nat × Item)} (hwf : ItemsWF l) :
    (l.filterMap (fun p => (replacement_target ctx p.1 p.2).map (fun r => (p.1, r)))).Pairwise
      (fun x y => x.1 ≠ y.1) := by
  induction l with
  | nil => simp
  | cons p t ih =>
    have hp := List.pairwise_cons.mp hwf
    simp only [List.filterMap_cons]
    cases ht : replacement_target ctx p.1 p.2 with
    | none => exact ih hp.2
    | some r =>
      simp only [Option.map_some']
      refine List.pairwise_cons.mpr ⟨?_, ih hp.2⟩
      intro q hq
      obtain ⟨p2, hp2, hfq⟩ := List.mem_filterMap.mp hq
      obtain ⟨r2, _, hpr⟩ := Option.map_eq_some'.mp hfq
      have hq1 : q.1 = p2.1 := by rw [← hpr]
      have := hp.1 p2 hp2
      simp only
      omega

/-- C7: for every well-formed graph `process_replacements` succeeds, and its
per-item outcome is exactly: a type item of candidate kind (non-specialized
composite, template alias, plain alias) whose canonical name has a registered
target differing from its own id and present in the item map is rewritten in
place to `ResolvedTypeRef(target)`; every other item — including the target
item itself, whose own lookup yields its own id — is unchanged. -/
theorem c7_process_replacements (ctx : Context) (hwf : ItemsWF ctx.items) :
    ∃ c, process_replacements ctx = some c ∧
      (∀ j, alookup c.items j =
        match alookup ctx.items j with
        | some it =>
          some (match replacement_target ctx j it with
                | some r => rewrite_kind r it
                | none => it)
        | none => none) := by
  unfold process_replacements
  by_cases hemp : ctx.replacements.isEmpty = true
  · rw [if_pos hemp]
    refine ⟨ctx, rfl, ?_⟩
    intro j
    cases hj : alookup ctx.items j with
    | none => rfl
    | some it =>
      have htgt : replacement_target ctx j it = none := by
        unfold replacement_target
        cases it.kind with
        | type t =>
          simp only
          split
          · rw [alookup_of_isEmpty hemp]
          · rfl
        | module m => rfl
        | function fn => rfl
        | var v => rfl
      simp [htgt]
  · rw [if_neg hemp]
    have hty : ∀ pr ∈ ctx.items.filterMap
        (fun p => (replacement_target ctx p.1 p.2).map (fun r => (p.1, r))),
        ∃ it t, alookup ctx.items pr.1 = some it ∧ it.kind = ItemKind.type t := by
      intro pr hpr
      obtain ⟨p2, hp2, hfq⟩ := List.mem_filterMap.mp hpr
      obtain ⟨r2, htgt, hpr2⟩ := Option.map_eq_some'.mp hfq
      obtain ⟨t, ht⟩ := replacement_target_type htgt
      have h1 : pr.1 = p2.1 := by rw [← hpr2]
      rw [h1]
      exact ⟨p2.2, t, mem_alookup hwf hp2, ht⟩
    obtain ⟨c, hc, hwfc, hchar⟩ :=
      process_loop_spec _ ctx hwf (prs_pairwise ctx hwf) hty
    refine ⟨c, hc, ?_⟩
    intro j
    rw [hchar j, alookup_filterMap_target ctx hwf j]
    cases hj : alookup ctx.items j with
    | none => simp [hj]
    | some it => cases htgt : replacement_target ctx j it <;> simp [hj, htgt]

/-- An alias type named A forwarding to node 2. -/
def tyAliasA : Ty := ⟨some ("A"), none, .alias ("A") 2, false⟩

/-- The item carrying `tyAliasA`. -/
def itemA : Item := Item.new 1 0 (.type tyAliasA)

/-- A context where name A is registered as replaced by node 2, and node 1 is
an alias type whose canonical name is A. -/
def exC7 : Context :=
  { items := [(0, rootItem), (1, itemA),
              (2, Item.new 2 0 (.type ⟨some ("B"), none, .otherKind, false⟩))],
    types := [], rootModule := 0, currentModule := 0, replacements := [("A", 2)],
    collectedTyperefs := true, options := emptyOpts, counter := 3 }

/-- C7 witness: on the concrete graph the alias named A is rewritten in place
to a resolved reference to its registered replacement, node 2. -/
theorem c7_process_replacements_witness :
    ∃ c, process_replacements exC7 = some c ∧
      alookup c.items 1 = some (rewrite_kind 2 itemA) := by
  obtain ⟨c, hc, hchar⟩ := c7_process_replacements exC7 (by decide)
  refine ⟨c, hc, ?_⟩
  rw [hchar 1]
  decide

/-- How the node stored at `id` forwards: `some x` when it is a type of kind
`ResolvedTypeRef x`. -/
def wrapper_target (ctx : Context) (id : Nat) : Option Nat :=
  match alookup ctx.items id with
  | some it =>
    match it.kind with
    | .type t =>
      match t.kind with
      | .resolvedTypeRef x => some x
      | _ => none
    | _ => none
  | none => none

theorem borty_hit_nontemplate (f : Nat) (ctx : Context) (w : Nat) (p : Option Nat)
    (ty : CType) (l : Option Cursor) (cid : Nat)
    (hv : ty.decl.valid = true)
    (hk1 : ty.decl.kind ≠ CursorKind.classTemplate)
    (hk2 : ty.decl.kind ≠ CursorKind.classTemplateSpec)
    (hcv : ty.decl.canonical.valid = true)
    (hhit : typesLookup ctx ty.decl.canonical = some cid)
    (hw : alookup ctx.items w = none) :
    builtin_or_resolved_ty (f + 1) ctx w p ty l = some (some w,
      { ctx with
        items := insertItem w
                   (Item.new w (p.getD ctx.currentModule)
                     (.type ⟨some ty.spelling, ty.layout, .resolvedTypeRef cid, ty.isConst⟩))
                   ctx.items }) := by
  cases l with
  | none =>
    cases p <;>
      simp [builtin_or_resolved_ty, hv, hcv, hhit, build_ty_wrapper, add_builtin_item, hw,
        Item.new]
  | some loc =>
    cases p <;>
      simp [builtin_or_resolved_ty, hv, hcv, hhit, hk1, hk2, build_ty_wrapper,
        add_builtin_item, hw, Item.new]

/-- C9: with the declaration already in the registry mapping to canonical node
`cid` and the template-wrapper path not triggered, two successive calls to
`builtin_or_resolved_ty` each return their fresh pre-allocated id, both fresh
nodes forward in one hop (`ResolvedTypeRef`) to the same `cid`, the registry
is never touched, and the canonical node itself is untouched. -/
theorem c9_dedup_idempotence (ctx : Context) (ty : CType) (w1 w2 cid : Nat)
    (p1 p2 : Option Nat) (l1 l2 : Option Cursor) (f1 f2 : Nat)
    (hv : ty.decl.valid = true)
    (hk1 : ty.decl.kind ≠ CursorKind.classTemplate)
    (hk2 : ty.decl.kind ≠ CursorKind.classTemplateSpec)
    (hcv : ty.decl.canonical.valid = true)
    (hhit : typesLookup ctx ty.decl.canonical = some cid)
    (hw1 : alookup ctx.items w1 = none)
    (hw2 : alookup ctx.items w2 = none)
    (hne : w2 ≠ w1) :
    ∃ ctx1 ctx2,
      builtin_or_resolved_ty (f1 + 1) ctx w1 p1 ty l1 = some (some w1, ctx1) ∧
      builtin_or_resolved_ty (f2 + 1) ctx1 w2 p2 ty l2 = some (some w2, ctx2) ∧
      wrapper_target ctx2 w1 = some cid ∧
      wrapper_target ctx2 w2 = some cid ∧
      ctx1.types = ctx.types ∧
      ctx2.types = ctx.types ∧
      (cid ≠ w1 → cid ≠ w2 → alookup ctx2.items cid = alookup ctx.items cid) := by
  have h1 := borty_hit_nontemplate f1 ctx w1 p1 ty l1 cid hv hk1 hk2 hcv hhit hw1
  set item1 : Item := Item.new w1 (p1.getD ctx.currentModule)
    (.type ⟨some ty.spelling, ty.layout, .resolvedTypeRef cid, ty.isConst⟩)
  set ctx1 : Context := { ctx with items := insertItem w1 item1 ctx.items }
  have hhit1 : typesLookup ctx1 ty.decl.canonical = some cid := hhit
  have hw2' : alookup ctx1.items w2 = none := by
    show alookup (insertItem w1 item1 ctx.items) w2 = none
    rw [alookup_insertItem_ne _ _ hne]
    exact hw2
  have h2 := borty_hit_nontemplate f2 ctx1 w2 p2 ty l2 cid hv hk1 hk2 hcv hhit1 hw2'
  set item2 : Item := Item.new w2 (p2.getD ctx1.currentModule)
    (.type ⟨some ty.spelling, ty.layout, .resolvedTypeRef cid, ty.isConst⟩)
  set ctx2 : Context := { ctx1 with items := insertItem w2 item2 ctx1.items }
  have e1 : alookup ctx2.items w1 = some item1 := by
    show alookup (insertItem w2 item2 ctx1.items) w1 = some item1
    rw [alookup_insertItem_ne _ _ (fun hx => hne hx.symm)]
    show alookup (insertItem w1 item1 ctx.items) w1 = some item1
    exact alookup_insertItem_self _ _ _
  have e2 : alookup ctx2.items w2 = some item2 := by
    show alookup (insertItem w2 item2 ctx1.items) w2 = some item2
    exact alookup_insertItem_self _ _ _
  refine ⟨ctx1, ctx2, h1, h2, ?_, ?_, rfl, rfl, ?_⟩
  · unfold wrapper_target
    rw [e1]
    rfl
  · unfold wrapper_target
    rw [e2]
    rfl
  · intro hc1 hc2
    show alookup (insertItem w2 item2 ctx1.items) cid = alookup ctx.items cid
    rw [alookup_insertItem_ne _ _ hc2]
    show alookup (insertItem w1 item1 ctx.items) cid = alookup ctx.items cid
    exact alookup_insertItem_ne _ _ hc1

/-- The canonical declaration handle of the C9/C8 examples. -/
def exCanon : Canon := ⟨true, some ("u"), 42, 9⟩

/-- A non-template declaration cursor resolving to `exCanon`. -/
def exDeclC9 : Decl := ⟨CursorKind.otherCursor, true, exCanon⟩

/-- A raw type whose declaration is `exDeclC9`. -/
def exTyC9 : CType := ⟨CXTypeKind.otherTy, 9, "T", false, none, exDeclC9⟩

/-- A context whose registry maps the USR of `exCanon` to node 1. -/
def exC9 : Context :=
  { items := [(0, rootItem), (1, Item.new 1 0 (.type tyA))],
    types := [(TypeKey.usr ("u"), 1)], rootModule := 0, currentModule := 0,
    replacements := [], collectedTyperefs := false, options := emptyOpts, counter := 5 }

/-- C9 witness: two concrete calls with the same registered declaration both
produce one-hop forwarding wrappers to canonical node 1 without touching the
registry. -/
theorem c9_dedup_idempotence_witness :
    ∃ ctx1 ctx2,
      builtin_or_resolved_ty (0 + 1) exC9 7 none exTyC9 none = some (some 7, ctx1) ∧
      builtin_or_resolved_ty (0 + 1) ctx1 8 none exTyC9 none = some (some 8, ctx2) ∧
      wrapper_target ctx2 7 = some 1 ∧
      wrapper_target ctx2 8 = some 1 ∧
      ctx1.types = exC9.types ∧
      ctx2.types = exC9.types ∧
      (1 ≠ 7 → 1 ≠ 8 → alookup ctx2.items 1 = alookup exC9.items 1) :=
  c9_dedup_idempotence exC9 exTyC9 7 8 1 none none none none 0 0
    (by decide) (by decide) (by decide) (by decide) (by decide) (by decide) (by decide)
    (by decide)

/-- The counter invariant: every key already in the item map was issued
before the current value of the id counter. -/
abbrev CounterWF (ctx : Context) : Prop :=
  ∀ p ∈ ctx.items, p.1 < ctx.counter

theorem counter_fresh {ctx : Context} (h : CounterWF ctx) :
    alookup ctx.items ctx.counter = none :=
  alookup_eq_none_of (fun p hp => Nat.ne_of_lt (h p hp))

theorem from_ty_or_ref_unresolved (g : Nat) (ctx : Context) (ty : CType)
    (loc : Option Cursor) (pid : Option Nat)
    (hflag : ctx.collectedTyperefs = false)
    (hcw : CounterWF ctx) :
    from_ty_or_ref (g + 1) ctx ty loc pid = some (ctx.counter,
      { ctx with
        counter := ctx.counter + 1,
        items := insertItem ctx.counter
                   (Item.new ctx.counter (pid.getD ctx.currentModule)
                     (.type ⟨none, none, .unresolvedTypeRef ty loc pid, false⟩))
                   ctx.items }) := by
  have hfresh := counter_fresh hcw
  simp [from_ty_or_ref, hflag, add_item, hfresh, Item.new]

theorem walk_args_spec : ∀ (ch : List ChildCursor) (g : Nat) (ctx : Context) (wr : Nat),
    ctx.collectedTyperefs = false → CounterWF ctx →
    ch.length + 1 ≤ g →
    ∃ args ctx',
      walk_template_args g ctx wr ch = some (args, ctx') ∧
      args.length = (ch.filter (fun c => c.kind = CursorKind.typeRef)).length ∧
      ctx'.collectedTyperefs = false ∧
      CounterWF ctx' ∧
      ctx'.types = ctx.types ∧
      ctx.counter ≤ ctx'.counter ∧
      (∀ k, k < ctx.counter → alookup ctx'.items k = alookup ctx.items k) ∧
      ctx'.items.length =
        ctx.items.length + (ch.filter (fun c => c.kind = CursorKind.typeRef)).length := by
  intro ch
  induction ch with
  | nil =>
    intro g ctx wr hflag hcw hg
    obtain ⟨g', rfl⟩ : ∃ g', g = g' + 1 := ⟨g - 1, by omega⟩
    refine ⟨[], ctx, ?_, by simp, hflag, hcw, rfl, le_refl _, fun k _ => rfl, by simp⟩
    simp [walk_template_args]
  | cons c0 rest ih =>
    intro g ctx wr hflag hcw hg
    obtain ⟨g', rfl⟩ : ∃ g', g = g' + 1 := ⟨g - 1, by omega⟩
    have hg' : rest.length + 1 ≤ g' := by
      simp only [List.length_cons] at hg
      omega
    by_cases hk : c0.kind = CursorKind.typeRef
    · obtain ⟨g'', rfl⟩ : ∃ g'', g' = g'' + 1 := ⟨g' - 1, by omega⟩
      have hfr := from_ty_or_ref_unresolved g'' ctx c0.curType
        (some c0.asCursor) (some wr) hflag hcw
      set itemU : Item := Item.new ctx.counter ((some wr).getD ctx.currentModule)
        (.type ⟨none, none, .unresolvedTypeRef c0.curType (some c0.asCursor) (some wr), false⟩)
      set ctxA : Context := { ctx with
        counter := ctx.counter + 1,
        items := insertItem ctx.counter itemU ctx.items }
      have hcwA : CounterWF ctxA := by
        intro p hp
        rcases mem_insertItem hp with h0 | h0
        · show p.1 < ctx.counter + 1
          rw [h0]
          exact Nat.lt_succ_self _
        · show p.1 < ctx.counter + 1
          exact Nat.lt_succ_of_lt (hcw p h0)
      have hlenA : ctxA.items.length = ctx.items.length + 1 := by
        show (insertItem ctx.counter itemU ctx.items).length = ctx.items.length + 1
        exact length_insertItem_fresh _ (counter_fresh hcw)
      obtain ⟨args', ctx', hwalk, hlen, hflag', hcw', htypes, hmono, hpres, hlens⟩ :=
        ih (g'' + 1) ctxA wr hflag hcwA hg'
      refine ⟨ctx.counter :: args', ctx', ?_, ?_, hflag', hcw', htypes, ?_, ?_, ?_⟩
      · simp only [walk_template_args, if_pos hk, hfr, hwalk, Option.map_some']
      · simp [hlen, List.filter_cons, hk]
      · show ctx.counter ≤ ctx'.counter
        have : ctx.counter ≤ ctxA.counter := Nat.le_succ _
        omega
      · intro k hk2
        rw [hpres k (by show k < ctx.counter + 1; omega)]
        show alookup (insertItem ctx.counter itemU ctx.items) k = alookup ctx.items k
        exact alookup_insertItem_ne _ _ (by omega)
      · rw [hlens, hlenA]
        simp [List.filter_cons, hk]
        omega
    · have := ih g' ctx wr hflag hcw hg'
      obtain ⟨args', ctx', hwalk, hlen, hflag', hcw', htypes, hmono, hpres, hlens⟩ := this
      refine ⟨args', ctx', ?_, ?_, hflag', hcw', htypes, hmono, hpres, ?_⟩
      · simp only [walk_template_args, if_neg hk]
        exact hwalk
      · simp [hlen, List.filter_cons, hk]
      · rw [hlens]
        simp [List.filter_cons, hk]

theorem btw_spec (ctx : Context) (withId wrapping parentId : Nat) (ty : CType) (loc : Cursor)
    (g : Nat) (wit : Item) (wt : Ty) (ci : CompInfo)
    (hflag : ctx.collectedTyperefs = false)
    (hcw : CounterWF ctx)
    (hfuel : loc.children.length + 2 ≤ g)
    (hwr : alookup ctx.items wrapping = some wit)
    (hwk : wit.kind = ItemKind.type wt)
    (hwc : wt.kind = TypeKind.comp ci) :
    ∃ args ctxW,
      args.length = (loc.children.filter (fun c => c.kind = CursorKind.typeRef)).length ∧
      ctxW.types = ctx.types ∧
      ctxW.items.length = ctx.items.length + args.length ∧
      (∀ k, k < ctx.counter → alookup ctxW.items k = alookup ctx.items k) ∧
      (ci.templateArgs.length ≠ args.length →
        build_template_wrapper g ctx withId wrapping parentId ty loc = some (wrapping, ctxW)) ∧
      (ci.templateArgs.length = args.length →
        build_template_wrapper g ctx withId wrapping parentId ty loc = some (withId,
          { ctxW with
            items := insertItem withId
                       (Item.new withId parentId
                         (.type ⟨(if ty.spelling = "" then none else some ty.spelling),
                                 ty.layout, .templateRef wrapping args, ty.isConst⟩))
                       ctxW.items })) := by
  obtain ⟨g', rfl⟩ : ∃ g', g = g' + 1 := ⟨g - 1, by omega⟩
  have hg' : loc.children.length + 1 ≤ g' := by omega
  obtain ⟨args, ctxW, hwalk, hlen, hflagW, hcwW, htypesW, hmono, hpres, hlens⟩ :=
    walk_args_spec loc.children g' ctx wrapping hflag hcw hg'
  have hwlt : wrapping < ctx.counter := hcw _ (alookup_mem hwr)
  have hlook : alookup ctxW.items wrapping = some wit := by
    rw [hpres wrapping hwlt]
    exact hwr
  have hres : resolve_type ctxW wrapping = some wt := by
    unfold resolve_type
    simp only [hlook, hwk]
  refine ⟨args, ctxW, hlen, htypesW, by rw [← hlen] at hlens; exact hlens, hpres, ?_, ?_⟩
  · intro hne
    simp only [build_template_wrapper, hwalk, hres, hwc]
    rw [if_pos hne]
  · intro heq
    simp only [build_template_wrapper, hwalk, hres, hwc]
    rw [if_neg (by omega)]

/-- C8(amended): on an argument-count mismatch `build_template_wrapper`
returns the generic declaration's own id (`wrapping`) and never inserts the
synthesized wrapper node — `with_id` stays absent — though the argument nodes
created while walking the AST remain (one per TypeRef child); on a count
match it inserts a fresh `TemplateRef(wrapping, args)` node at `with_id`
under the caller-supplied parent, bypassing the type registry, and returns
`with_id`. -/
theorem c8_template_wrapper_outcomes (ctx : Context) (withId wrapping parentId : Nat)
    (ty : CType) (loc : Cursor) (g : Nat) (wit : Item) (wt : Ty) (ci : CompInfo)
    (hflag : ctx.collectedTyperefs = false)
    (hcw : CounterWF ctx)
    (hwid : alookup ctx.items withId = none)
    (hwlt : withId < ctx.counter)
    (hfuel : loc.children.length + 2 ≤ g)
    (hwr : alookup ctx.items wrapping = some wit)
    (hwk : wit.kind = ItemKind.type wt)
    (hwc : wt.kind = TypeKind.comp ci) :
    (ci.templateArgs.length ≠ (loc.children.filter (fun c => c.kind = CursorKind.typeRef)).length →
      ∃ ctxW, build_template_wrapper g ctx withId wrapping parentId ty loc = some (wrapping, ctxW) ∧
        alookup ctxW.items withId = none ∧
        ctxW.items.length = ctx.items.length +
          (loc.children.filter (fun c => c.kind = CursorKind.typeRef)).length) ∧
    (ci.templateArgs.length = (loc.children.filter (fun c => c.kind = CursorKind.typeRef)).length →
      ∃ args ctx2, build_template_wrapper g ctx withId wrapping parentId ty loc = some (withId, ctx2) ∧
        args.length = ci.templateArgs.length ∧
        alookup ctx2.items withId = some (Item.new withId parentId
          (.type ⟨(if ty.spelling = "" then none else some ty.spelling),
                  ty.layout, .templateRef wrapping args, ty.isConst⟩)) ∧
        ctx2.types = ctx.types) := by
  obtain ⟨args, ctxW, hlen, htypesW, hlens, hpres, hmis, hmat⟩ :=
    btw_spec ctx withId wrapping parentId ty loc g wit wt ci hflag hcw hfuel hwr hwk hwc
  constructor
  · intro hne
    refine ⟨ctxW, hmis (by omega), ?_, by omega⟩
    rw [hpres withId hwlt]
    exact hwid
  · intro heq
    refine ⟨args, _, hmat (by omega), by omega, ?_, htypesW⟩
    exact alookup_insertItem_self _ _ _

/-- C10: after the mismatch fallback, the pre-allocated `with_id` was never
inserted: `resolve_item_fallible` returns none for it and `resolve_item` is
fatal, even though the synthesis call itself returned successfully. -/
theorem c10_mismatch_withid_dangling (ctx : Context) (withId wrapping parentId : Nat)
    (ty : CType) (loc : Cursor) (g : Nat) (wit : Item) (wt : Ty) (ci : CompInfo)
    (hflag : ctx.collectedTyperefs = false)
    (hcw : CounterWF ctx)
    (hwid : alookup ctx.items withId = none)
    (hwlt : withId < ctx.counter)
    (hfuel : loc.children.length + 2 ≤ g)
    (hwr : alookup ctx.items wrapping = some wit)
    (hwk : wit.kind = ItemKind.type wt)
    (hwc : wt.kind = TypeKind.comp ci)
    (hne : ci.templateArgs.length ≠
      (loc.children.filter (fun c => c.kind = CursorKind.typeRef)).length) :
    ∃ ctxW, build_template_wrapper g ctx withId wrapping parentId ty loc = some (wrapping, ctxW) ∧
      resolve_item_fallible ctxW withId = none ∧
      resolve_item ctxW withId = none := by
  obtain ⟨args, ctxW, hlen, htypesW, hlens, hpres, hmis, hmat⟩ :=
    btw_spec ctx withId wrapping parentId ty loc g wit wt ci hflag hcw hfuel hwr hwk hwc
  have hnone : alookup ctxW.items withId = none := by
    rw [hpres withId hwlt]
    exact hwid
  exact ⟨ctxW, hmis (by omega), hnone, hnone⟩

/-- A TypeRef child occurrence for the template-wrapper walk. -/
def childTR : ChildCursor := ⟨CursorKind.typeRef, exTyC9⟩

/-- A class-template location cursor exposing one TypeRef child. -/
def exLoc : Cursor := ⟨CursorKind.classTemplate, true, exCanon, [childTR]⟩

/-- The canonical generic composite (zero declared template arguments). -/
def wrapItem : Item := Item.new 1 0 (.type ⟨some ("W"), none, .comp ⟨[], [], false⟩, false⟩)

/-- A parse-phase context holding the root module and the generic composite. -/
def exC8 : Context :=
  { items := [(0, rootItem), (1, wrapItem)], types := [], rootModule := 0,
    currentModule := 0, replacements := [], collectedTyperefs := false,
    options := emptyOpts, counter := 5 }

/-- C8 witness: on the concrete mismatch (0 declared arguments, 1 collected)
the call returns the generic id 1, `with_id` 3 stays absent, and exactly the
one argument node was added. -/
theorem c8_template_wrapper_outcomes_witness :
    ∃ ctxW, build_template_wrapper 3 exC8 3 1 0 exTyC9 exLoc = some (1, ctxW) ∧
      alookup ctxW.items 3 = none ∧
      ctxW.items.length = exC8.items.length +
        (exLoc.children.filter (fun c => c.kind = CursorKind.typeRef)).length :=
  (c8_template_wrapper_outcomes exC8 3 1 0 exTyC9 exLoc 3 wrapItem
      ⟨some ("W"), none, .comp ⟨[], [], false⟩, false⟩ ⟨[], [], false⟩
      (by decide) (by decide) (by decide) (by decide) (by decide) (by decide)
      (by decide) (by decide)).1 (by decide)

/-- C8 counterexample: the mismatch fallback does insert a new node — on the
concrete two-item graph the call returns the generic id 1 (the fallback), yet
the resulting item map holds three items (the argument placeholder created
during the walk was inserted), so "returns wrapping without inserting any new
node" is false as stated. -/
theorem c8_counterexample :
    ∃ ctxW, build_template_wrapper 3 exC8 3 1 0 exTyC9 exLoc = some (1, ctxW) ∧
      ctxW.items.length = 3 ∧ exC8.items.length = 2 := by
  obtain ⟨args, ctxW, hlen, _, hlens, _, hmis, _⟩ :=
    btw_spec exC8 3 1 0 exTyC9 exLoc 3 wrapItem
      ⟨some ("W"), none, .comp ⟨[], [], false⟩, false⟩ ⟨[], [], false⟩
      (by decide) (by decide) (by decide) (by decide) (by decide) (by decide)
  have hone : args.length = 1 := by
    rw [hlen]
    decide
  have htwo : exC8.items.length = 2 := by decide
  refine ⟨ctxW, hmis (by simp [hone]), by omega, htwo⟩

/-- C10 witness: on the concrete mismatch the returned graph cannot resolve
the pre-allocated id 3 at all. -/
theorem c10_mismatch_withid_dangling_witness :
    ∃ ctxW, build_template_wrapper 3 exC8 3 1 0 exTyC9 exLoc = some (1, ctxW) ∧
      resolve_item_fallible ctxW 3 = none ∧
      resolve_item ctxW 3 = none :=
  c10_mismatch_withid_dangling exC8 3 1 0 exTyC9 exLoc 3 wrapItem
    ⟨some ("W"), none, .comp ⟨[], [], false⟩, false⟩ ⟨[], [], false⟩
    (by decide) (by decide) (by decide) (by decide) (by decide) (by decide)
    (by decide) (by decide) (by decide)

end Bindgen
